import Mathlib

/-
Verification of the performance-analysis data pipeline of the ai-robo-advisor
repository against its natural-language specification.

The embedding below translates the relevant Python sources into Lean:
  * src/tools/polygon_api.py   — retry wrapper, concurrent fetch orchestrator
  * src/utils/analysis_data.py — portfolio data assembler (all_data)
  * src/utils/metrics.py       — metrics engine
  * src/nodes/analyst_agents/performance.py — coordinator (analyze_performance)

Modelling conventions:
  * Python dicts are insertion-ordered association lists (`Dict` below) with
    insert-replace semantics, mirroring CPython dict behaviour.
  * Floats are modelled as exact rationals `ℚ`.  Quantities whose float value
    is irrational (CAGR, annualized volatility, Sharpe, Alpha) are represented
    by the exact rational data that determines them (see `PerfMetrics`);
    pandas' NaN (sample std of fewer than two returns) is `Option.none`.
  * Exceptions are `Except String` carrying the message built by the source.
  * Network I/O is an oracle `fetch : String → FetchResult` giving, per ticker,
    the bars the vendor call chain would produce, already in the per-bar
    record format produced by `history_to_dict` (the timestamp-to-string
    formatting of that function is a per-bar reformatting irrelevant to the
    properties below; dates are modelled as day numbers `ℕ`).
  * Sleeps and attempt counts of the retry loop are returned explicitly so
    that scheduling claims are statable.
-/

set_option autoImplicit false

-- Batteries marks the `Rat` field operations irreducible, which blocks
-- kernel evaluation of concrete witnesses; restore default reducibility.
set_option allowUnsafeReducibility true in
attribute [semireducible] Rat.add Rat.mul Rat.inv Rat.sub Rat.div Rat.neg

deriving instance DecidableEq for Except

namespace Robo

/-! ## Python-style dictionaries -/

/-- Insertion-ordered string-keyed map with CPython dict semantics:
inserting an existing key overwrites in place, a fresh key is appended. -/
structure Dict (α : Type) where
  entries : List (String × α)
deriving Repr, DecidableEq

namespace Dict

variable {α β : Type}

def empty : Dict α := ⟨[]⟩

def contains (d : Dict α) (k : String) : Bool :=
  d.entries.any (fun p => p.1 == k)

def get? (d : Dict α) (k : String) : Option α :=
  (d.entries.find? (fun p => p.1 == k)).map Prod.snd

/-- CPython `d[k] = v`: overwrite the (unique) slot holding `k` in place, or
append a fresh slot. -/
def insertEntries (k : String) (v : α) : List (String × α) → List (String × α)
  | [] => [(k, v)]
  | p :: rest => if p.1 == k then (k, v) :: rest else p :: insertEntries k v rest

def insert (d : Dict α) (k : String) (v : α) : Dict α :=
  ⟨insertEntries k v d.entries⟩

/-- `pop`: remove a key, keeping the order of the remaining entries. -/
def erase (d : Dict α) (k : String) : Dict α :=
  ⟨d.entries.filter (fun p => p.1 != k)⟩

/-- Sequential `pop` of several keys (order of survivors is preserved, so a
single filter is equivalent). -/
def eraseKeys (d : Dict α) (ks : List String) : Dict α :=
  ⟨d.entries.filter (fun p => !(ks.contains p.1))⟩

def keys (d : Dict α) : List String := d.entries.map Prod.fst

def values (d : Dict α) : List α := d.entries.map Prod.snd

def size (d : Dict α) : ℕ := d.entries.length

def isEmpty (d : Dict α) : Bool := d.entries.isEmpty

/-- `sum(d.values())` for a dict of numbers. -/
def sumValues (d : Dict ℚ) : ℚ := d.values.sum

/-- Python `{k: f(v) for k, v in d.items()}` (keeps order). -/
def mapValues (f : α → β) (d : Dict α) : Dict β :=
  ⟨d.entries.map (fun p => (p.1, f p.2))⟩

/-- Python `{k: d[k] for k in ks}`: build a dict by iterating `ks`. -/
def selectKeys (d : Dict α) (ks : List String) : Dict α :=
  ks.foldl (fun acc k => match d.get? k with
    | some v => acc.insert k v
    | none => acc) empty

end Dict

/-! ## Market data model -/

/-- One daily bar as produced by `history_to_dict`: the source stores
`date/open/high/low/close/volume`; the date string is order-isomorphic to the
underlying timestamp and is modelled as a day number. -/
structure Bar where
  date : ℕ
  op : ℚ
  hi : ℚ
  lo : ℚ
  close : ℚ
  volume : ℚ
deriving Repr, DecidableEq

/-- A price series: the `(date, close)` column pair extracted from bars. -/
abbrev Series := List (ℕ × ℚ)

def barsToSeries (bars : List Bar) : Series :=
  bars.map (fun b => (b.date, b.close))

/-! ## Retry wrapper (`_call_with_retries`, polygon_api.py lines 88-147) -/

/-- Outcome of one raw vendor attempt (`func()` within the wrapper):
a returned value, a per-call timeout, or an exception (with its rate-limit
classification per `_is_rate_limit_exception`). -/
inductive Attempt where
  | ok (bars : List Bar)
  | timeout
  | exc (rateLimit : Bool) (msg : String)
deriving Repr, DecidableEq

/-- Result of `_call_with_retries` plus the observable schedule: total number
of attempts performed and the back-off sleeps executed (in order). -/
structure RetryRun where
  result : Except String (List Bar)
  attempts : ℕ
  sleeps : List ℚ
deriving Repr, DecidableEq

/-- The `while attempt <= max_retries` loop.  `remaining + 1` is the number of
loop iterations still allowed (the loop guard `attempt <= max_retries`, read
before the increment, allows `max_retries + 1` iterations in total); `i` is
the 1-based number of the current attempt; `backend i` is what `func` does on
attempt `i`; `jitter i` models `random.uniform(0, 0.5)` drawn after attempt
`i`.  A timeout stores the exception and re-enters the loop without sleeping;
a rate-limit exception sleeps `1.0 * 2 ** (attempt - 1) + jitter` and retries
while the guard allows; any other exception is re-raised at once. -/
def retryLoop (backend : ℕ → Attempt) (jitter : ℕ → ℚ) (timeoutS : ℕ) :
    ℕ → ℕ → List ℚ → RetryRun
  | 0, i, sleeps =>
      -- unreachable: the loop is entered with at least one iteration allowed
      ⟨.error "", i, sleeps⟩
  | remaining + 1, i, sleeps =>
      match backend i with
      | .ok bars => ⟨.ok bars, i, sleeps⟩
      | .timeout =>
          if remaining = 0 then
            -- loop guard fails; `raise last_exc` after the loop
            ⟨.error (s!"Polygon request timed out after {timeoutS}s on attempt {i}"), i, sleeps⟩
          else retryLoop backend jitter timeoutS remaining (i + 1) sleeps
      | .exc rateLimit msg =>
          if rateLimit ∧ remaining ≠ 0 then
            retryLoop backend jitter timeoutS remaining (i + 1)
              (sleeps ++ [(2 : ℚ) ^ (i - 1) + jitter i])
          else
            -- non-rate-limit exception, or rate limit with the guard exhausted
            ⟨.error msg, i, sleeps⟩

/-- `_call_with_retries(func, timeout, max_retries)`. -/
def call_with_retries (backend : ℕ → Attempt) (jitter : ℕ → ℚ)
    (timeoutS : ℕ) (maxRetries : ℕ) : RetryRun :=
  retryLoop backend jitter timeoutS (maxRetries + 1) 1 []

/-- `get_stock_history` (polygon_api.py lines 191-220): wraps the retry loop
and converts any escaping exception into an empty list.  The successful value
is passed through `history_to_dict`, a per-bar reformatting modelled as the
identity on already-converted bars. -/
def get_stock_history (backend : ℕ → Attempt) (jitter : ℕ → ℚ)
    (timeoutS : ℕ) (maxRetries : ℕ) : RetryRun :=
  let run := call_with_retries backend jitter timeoutS maxRetries
  match run.result with
  | .ok bars => ⟨.ok bars, run.attempts, run.sleeps⟩
  | .error _ => ⟨.ok [], run.attempts, run.sleeps⟩

/-! ## Concurrent fetch orchestrator (`fetch_histories_concurrently`) -/

/-- Per-ticker outcome of the whole `get_stock_history` call as observed by
the orchestrator: either the returned history (possibly empty), or an
unexpected exception escaping the submitted task. -/
inductive FetchResult where
  | ok (bars : List Bar)
  | raised (msg : String)
deriving Repr, DecidableEq

/-- A ticker's fetch "succeeded" for the orchestrator: the task did not raise
and returned a truthy (non-empty) history. -/
def goodFetch (fetch : String → FetchResult) (t : String) : Bool :=
  match fetch t with
  | .ok bars => !bars.isEmpty
  | .raised _ => false

/-- The bars a ticker's fetch task delivers (empty on an escaped exception). -/
def fetchBars (fetch : String → FetchResult) (t : String) : List Bar :=
  match fetch t with
  | .ok bars => bars
  | .raised _ => []

/-- `fetch_histories_concurrently` (polygon_api.py lines 150-189): fan out,
store `ticker → result` for every future whose result is truthy (non-empty),
swallow per-ticker exceptions.  Completion order is modelled as submission
order; the resulting dict content is order-independent per key. -/
def fetch_histories_concurrently (fetch : String → FetchResult)
    (tickers : List String) : Dict (List Bar) :=
  tickers.foldl (fun acc t =>
    match fetch t with
    | .ok bars => if bars.isEmpty then acc else acc.insert t bars
    | .raised _ => acc) Dict.empty

/-! ## Portfolio data model (src/data/models.py) -/

/-- `Strategy` (only the field the coordinator reads). -/
structure Strategy where
  expected_returns : String
deriving Repr, DecidableEq

/-- `Holding`: `symbol` and `weight` are `Option`s to mirror the duck-typed
`hasattr` checks of `all_data` (a `none` models an object lacking the
attribute); the pydantic model always provides both. -/
structure Holding where
  symbol : Option String
  weight : Option ℚ
deriving Repr, DecidableEq

structure Portfolio where
  name : String
  holdings : List Holding
  strategy : Strategy
deriving Repr, DecidableEq

/-- `DataQualityWarning` (analysis_data.py lines 6-10). -/
structure DataQualityWarning where
  message : String
  missing_tickers : List String
deriving Repr, DecidableEq

/-! ## Portfolio data assembler (`all_data`, analysis_data.py lines 13-203) -/

/-- The tuple returned by `all_data`. -/
structure AllDataResult where
  portfolio_data : Dict (List Bar)
  benchmark_data : List Bar
  weights : Dict ℚ
  warning : Option DataQualityWarning
deriving Repr, DecidableEq

/-- `all_data` outcome together with the list of tickers handed to the fetch
orchestrator (empty when validation fails before any network I/O). -/
structure AllDataRun where
  result : Except String AllDataResult
  fetched : List String
deriving Repr, DecidableEq

/-- Holding extraction loop (analysis_data.py lines 52-63): first holding
without a `symbol`/`weight` attribute or with an empty symbol aborts; the
tickers list keeps duplicates, the weights dict overwrites them.
Source messages quote the attribute names; quotes are elided here. -/
def extractHoldings : List Holding → List String → Dict ℚ →
    Except String (List String × Dict ℚ)
  | [], tickers, weights => .ok (tickers, weights)
  | h :: rest, tickers, weights =>
      match h.symbol, h.weight with
      | none, _ => .error "Each holding must have symbol and weight attributes"
      | some _, none => .error "Each holding must have symbol and weight attributes"
      | some s, some w =>
          if s = "" then .error "Holding symbol cannot be empty"
          else extractHoldings rest (tickers ++ [s]) (weights.insert s w)

/-- Static benchmark fallback table (analysis_data.py lines 102-106). -/
def benchmark_alternatives : Dict (List String) :=
  ⟨[("ACWI", ["SPY", "VT"]), ("SPY", ["VOO", "IVV"]), ("VT", ["ACWI", "VTI"])]⟩

/-- Error of analysis_data.py lines 116-119: raised when neither the
benchmark nor any fallback is present in the fetched histories. -/
def benchmarkUnavailableMessage (benchmark_ticker : String) : String :=
  s!"Failed to fetch data for benchmark ticker: {benchmark_ticker}. Unable to proceed with analysis without benchmark data."

/-- Warning message of analysis_data.py line 123. -/
def fallbackMessage (fb benchmark_ticker : String) : String :=
  s!"Using {fb} as fallback for benchmark {benchmark_ticker}"

/-- Warning message of analysis_data.py lines 152-155. -/
def partialDataMessage (missing_tickers : List String) (nAll : ℕ) : String :=
  let nMissing := missing_tickers.length
  let names := String.intercalate ", " missing_tickers
  s!"Partial data: missing {nMissing} of {nAll} holdings ({names}). Weights have been adjusted for remaining holdings."

/-- Benchmark resolution (analysis_data.py lines 100-126): pop the benchmark
history from the fetched map, falling back to the first alternative present
in that same map.  Returns the remaining histories, the benchmark history and
the warning message (if a fallback was used). -/
def resolveBenchmark (all_histories : Dict (List Bar)) (benchmark_ticker : String) :
    Except String (Dict (List Bar) × List Bar × Option String) :=
  if all_histories.contains benchmark_ticker then
    .ok (all_histories.erase benchmark_ticker,
         (all_histories.get? benchmark_ticker).getD [], none)
  else
    let alts := (benchmark_alternatives.get? benchmark_ticker).getD []
    match alts.find? (fun a => all_histories.contains a) with
    | none => .error (benchmarkUnavailableMessage benchmark_ticker)
    | some fb =>
        .ok (all_histories.erase fb, (all_histories.get? fb).getD [],
             some (fallbackMessage fb benchmark_ticker))

/-- Missing-ticker handling (analysis_data.py lines 128-155): drop portfolio
tickers absent from the fetched map and rescale the survivors to the original
total; the partial-data message *overwrites* any earlier warning message.
Source renders the missing list in Python list syntax; rendered here with
`", "` separators. -/
def stageMissing (histories : Dict (List Bar)) (portfolio_tickers : List String)
    (weights : Dict ℚ) (total_weight : ℚ) ( allow_partial : Bool)
    (warning_message : Option String) :
    Except String (Dict ℚ × Option String × List String) :=
  let missing_tickers := portfolio_tickers.filter (fun t => !(histories.contains t))
  let available_tickers := portfolio_tickers.filter (fun t => histories.contains t)
  if missing_tickers.isEmpty then .ok (weights, warning_message, [])
  else if ! allow_partial ∨ available_tickers.isEmpty then
    let ms := String.intercalate ", " missing_tickers
    .error (s!"Failed to fetch data for portfolio tickers: {ms}. Analysis cannot proceed without sufficient portfolio data.")
  else
    let adjusted_weights := weights.selectKeys available_tickers
    let available_weight_sum := adjusted_weights.sumValues
    if available_weight_sum ≤ 0 then
      .error "Remaining portfolio tickers have zero or negative weights"
    else
      let scale_factor := total_weight / available_weight_sum
      .ok (adjusted_weights.mapValues (· * scale_factor),
           some (partialDataMessage missing_tickers portfolio_tickers.length),
           missing_tickers)

/-- Insufficient-data handling (analysis_data.py lines 157-187): drop tickers
with fewer than 2 bars; renormalize the survivors back to the original total
only when their current weight sum is positive. -/
def stageInsufficient (histories : Dict (List Bar)) (weights : Dict ℚ)
    (total_weight : ℚ) ( allow_partial : Bool) (warning_message : Option String) :
    Except String (Dict (List Bar) × Dict ℚ × Option String × List String) :=
  let insufficient := (histories.entries.filter (fun p => p.2.length < 2)).map Prod.fst
  if insufficient.isEmpty then .ok (histories, weights, warning_message, [])
  else if ! allow_partial then
    let ns := String.intercalate ", " insufficient
    .error (s!"Insufficient data for tickers: {ns}. Each ticker needs at least 2 data points.")
  else
    let histories1 := histories.eraseKeys insufficient
    let weights1 := weights.eraseKeys insufficient
    if histories1.isEmpty then
      .error "No tickers with sufficient data remain after validation"
    else
      let remaining_weight := weights1.sumValues
      let weights2 :=
        if remaining_weight > 0 then
          weights1.mapValues (fun w => w / remaining_weight * total_weight)
        else weights1
      let n := insufficient.length
      let msg := match warning_message with
        | some m => some (m ++ s!" Additionally, {n} ticker(s) had insufficient data.")
        | none => some s!"Removed {n} ticker(s) with insufficient data."
      .ok (histories1, weights2, msg, insufficient)

/-- `all_data(portfolio, benchmark_ticker, allow_partial)` over a fetch
oracle.  The date-range computation only feeds the oracle and is omitted;
the `fetched` field records the tickers submitted to the orchestrator. -/
def all_data (fetch : String → FetchResult) (portfolio : Portfolio)
    (benchmark_ticker : String) ( allow_partial : Bool) : AllDataRun :=
  if benchmark_ticker = "" then
    ⟨.error "benchmark_ticker must be a non-empty string", []⟩
  else if portfolio.holdings.isEmpty then
    ⟨.error "Portfolio must have holdings", []⟩
  else
    match extractHoldings portfolio.holdings [] Dict.empty with
    | .error e => ⟨.error e, []⟩
    | .ok (portfolio_tickers, weights0) =>
      if portfolio_tickers.isEmpty then
        -- dead branch given a non-empty holdings list; kept for faithfulness
        ⟨.error "Portfolio contains no valid tickers", []⟩
      else
        let total_weight := weights0.sumValues
        if total_weight ≤ 0 then
          ⟨.error "Portfolio weights must sum to a positive value", []⟩
        else
          let all_tickers_to_fetch := portfolio_tickers ++ [benchmark_ticker]
          let all_histories := fetch_histories_concurrently fetch all_tickers_to_fetch
          if all_histories.isEmpty then
            ⟨.error "No historical data was retrieved for any ticker", all_tickers_to_fetch⟩
          else
            match resolveBenchmark all_histories benchmark_ticker with
            | .error e => ⟨.error e, all_tickers_to_fetch⟩
            | .ok (histories1, benchmark_data, warning0) =>
              match stageMissing histories1 portfolio_tickers weights0 total_weight
                  allow_partial warning0 with
              | .error e => ⟨.error e, all_tickers_to_fetch⟩
              | .ok (weights1, warning1, missing_tickers) =>
                match stageInsufficient histories1 weights1 total_weight
                    allow_partial warning1 with
                | .error e => ⟨.error e, all_tickers_to_fetch⟩
                | .ok (portfolio_data, weights2, warning2, insufficient) =>
                  if benchmark_data.length < 2 then
                    let n := benchmark_data.length
                    ⟨.error s!"Insufficient data for benchmark: need at least 2 data points, got {n}", all_tickers_to_fetch⟩
                  else
                    let data_warning := warning2.map
                      (fun m => DataQualityWarning.mk m (missing_tickers ++ insufficient))
                    ⟨.ok ⟨portfolio_data, benchmark_data, weights2, data_warning⟩,
                     all_tickers_to_fetch⟩

/-! ## Metrics engine helpers (src/utils/metrics.py)

pandas statistics are sample statistics (`ddof = 1`); the sample standard
deviation of fewer than two observations is NaN, modelled as `Option.none`. -/

def mean (xs : List ℚ) : ℚ := xs.sum / (xs.length : ℚ)

/-- Sample variance (`ddof = 1`); `none` models pandas' NaN for `n < 2`. -/
def sampleVar (xs : List ℚ) : Option ℚ :=
  if xs.length < 2 then none
  else some ((xs.map (fun x => (x - mean xs) ^ 2)).sum / ((xs.length : ℚ) - 1))

/-- Sample covariance of two equally long lists (`ddof = 1`). -/
def sampleCov (xs ys : List ℚ) : ℚ :=
  ((List.zipWith (fun x y => (x - mean xs) * (y - mean ys)) xs ys).sum) /
    ((xs.length : ℚ) - 1)

/-- `Series.pct_change().dropna()`: `r_t = p_t / p_{t-1} - 1`, indexed from the
second date on (the first row is NaN and dropped). -/
def pctChange (s : Series) : Series :=
  List.zipWith (fun prev cur => (cur.1, cur.2 / prev.2 - 1)) s s.tail

/-- `(1 + r).cumprod()` (on a plain list of values). -/
def cumprod (xs : List ℚ) : List ℚ := (xs.scanl (· * ·) 1).tail

/-- `Series.cummax()`. -/
def cummax : List ℚ → List ℚ
  | [] => []
  | x :: xs => xs.scanl max x

/-- `Series.min()` on a non-empty list (`0` on the unreachable empty case). -/
def listMin : List ℚ → ℚ
  | [] => 0
  | x :: xs => xs.foldl min x

/-- The exact rational data underlying the dictionary returned by
`calculate_performance_metrics`.  The source rounds floats to 4 decimals for
display and also returns
`CAGR = (1 + cumulativeReturn) ** (365 / numDays) - 1`,
`Annualized Volatility = sqrt volSq` and
`Sharpe Ratio = ((1 + meanDailyReturn) ** 252 - 1 - risk_free_rate) / sqrt volSq`,
all of which are determined by the fields below; being irrational powers of
rationals they are kept in this determining form.  `volSq = none` models NaN
volatility (a single daily return). -/
structure PerfMetrics where
  cumulativeReturn : ℚ
  numDays : ℤ
  meanDailyReturn : ℚ
  volSq : Option ℚ
  maxDrawdown : ℚ
deriving Repr, DecidableEq

/-- `calculate_performance_metrics` (metrics.py lines 12-66). -/
def calculate_performance_metrics (prices : Series) (risk_free_rate : ℚ) :
    Except String PerfMetrics :=
  if prices.length < 2 then
    .error "Price series must contain at least 2 data points"
  else if prices.any (fun p => p.2 ≤ 0) then
    .error "Price series must contain only positive values"
  else
    let first := prices.headD (0, 1)
    let last := (prices.getLast?).getD (0, 1)
    let cumulativeReturn := last.2 / first.2 - 1
    let numDays : ℤ := (last.1 : ℤ) - (first.1 : ℤ)
    if numDays ≤ 0 then .error "Price series must span more than 0 days"
    else
      let daily_returns := (pctChange prices).map Prod.snd
      if daily_returns.isEmpty then
        -- unreachable for series of length ≥ 2; kept for faithfulness
        .error "Unable to calculate daily returns from price series"
      else
        let volSq := (sampleVar daily_returns).map (· * 252)
        let cum := cumprod (daily_returns.map (1 + ·))
        let peak := cummax cum
        let drawdown := List.zipWith (fun c p => (c - p) / p) cum peak
        let maxDrawdown := listMin drawdown
        if volSq = some 0 then
          .error "Cannot calculate Sharpe ratio: volatility is zero"
        else
          .ok ⟨cumulativeReturn, numDays, mean daily_returns, volSq, maxDrawdown⟩

/-- The exact rational data underlying the dictionary returned by
`calculate_relative_metrics`: the source also returns
`Alpha = (1 + meanAsset) ** 252 - 1 - (risk_free_rate + beta * ((1 + meanBenchmark) ** 252 - 1 - risk_free_rate))`,
determined by these fields. -/
structure RelMetrics where
  beta : ℚ
  meanAsset : ℚ
  meanBenchmark : ℚ
deriving Repr, DecidableEq

/-- Inner join of two series on their date index (the `DataFrame` +
`dropna()` of metrics.py line 82; for the sorted indexes arising here the
row order matches pandas). -/
def innerJoin (xs ys : Series) : List (ℕ × ℚ × ℚ) :=
  xs.filterMap (fun x => (ys.find? (fun y => y.1 == x.1)).map (fun y => (x.1, x.2, y.2)))

/-- `calculate_relative_metrics` (metrics.py lines 69-103). -/
def calculate_relative_metrics (asset_returns benchmark_returns : Series)
    (risk_free_rate : ℚ) : Except String RelMetrics :=
  let df := innerJoin asset_returns benchmark_returns
  if df.length < 2 then
    .error "Insufficient overlapping data between asset and benchmark returns"
  else
    let a := df.map (fun r => r.2.1)
    let b := df.map (fun r => r.2.2)
    let covariance := sampleCov a b
    let benchmark_variance := (sampleVar b).getD 0   -- n ≥ 2 here, so defined
    if benchmark_variance = 0 then
      .error "Cannot calculate Beta: benchmark variance is zero"
    else
      .ok ⟨covariance / benchmark_variance, mean a, mean b⟩

/-! ## Frame alignment (`pd.DataFrame(all_prices).ffill().dropna()`)

Combining series into a frame reindexes every column on the sorted union of
the date indexes; `ffill` carries the last seen value forward per column;
`dropna` removes rows where some column has no value yet.  Histories with
duplicate dates are outside the model (pandas raises on reindexing them);
the theorems below assume strictly ascending dates where it matters. -/

def insertSorted (x : ℕ) : List ℕ → List ℕ
  | [] => [x]
  | y :: ys => if x ≤ y then x :: y :: ys else y :: insertSorted x ys

/-- Sorted union of date lists (duplicates removed). -/
def sortedDates (ds : List ℕ) : List ℕ := ds.dedup.foldr insertSorted []

def unionDates (cols : Dict Series) : List ℕ :=
  sortedDates (cols.entries.foldl (fun acc c => acc ++ c.2.map Prod.fst) [])

/-- Forward-filled value of a series at a date (`none` before the first
observation — a NaN that `dropna` will remove). -/
def ffillAt (s : Series) (d : ℕ) : Option ℚ :=
  ((s.filter (fun p => p.1 ≤ d)).getLast?).map Prod.snd

/-- The row index surviving `ffill().dropna()`. -/
def alignedDates (cols : Dict Series) : List ℕ :=
  (unionDates cols).filter (fun d => cols.entries.all (fun c => (ffillAt c.2 d).isSome))

/-- One aligned column over the surviving row index. -/
def alignedCol (s : Series) (dates : List ℕ) : Series :=
  dates.map (fun d => (d, (ffillAt s d).getD 0))

/-! ## Portfolio analysis (`analyze_portfolio`, metrics.py lines 106-287) -/

/-- `AnalysisWarning` (metrics.py lines 6-10).  `affected_tickers` is built by
the source as `list(set(...))`; its order is unobservable and modelled as
`dedup`. -/
structure AnalysisWarning where
  message : String
  affected_tickers : List String
deriving Repr, DecidableEq

/-- The nested result dictionary of `analyze_portfolio`. -/
structure APResult where
  benchmark : PerfMetrics
  tickers : Dict (PerfMetrics × RelMetrics)
  portfolio : PerfMetrics × RelMetrics
  warning : Option AnalysisWarning
deriving Repr, DecidableEq

/-- `analyze_portfolio` outcome together with the frame-effect data:
`skipped` (`skipped_tickers`), `failed` (`failed_ticker_analysis`) and
`callerWeights`, the content of the *caller's* `weights` dict object after
the call (the source pops failed tickers from it in place unless the local
name was rebound to a fresh dict by the skipped-ticker adjustment). -/
structure APRun where
  result : Except String APResult
  skipped : List String
  failed : List String
  callerWeights : Option (Dict ℚ)
deriving Repr, DecidableEq

/-- Data-preparation loop (metrics.py lines 142-166): empty per-ticker data
is skipped under allow-partial, fatal otherwise.  The missing-`close` and
malformed-frame branches are unreachable over typed bars. -/
def apPrep ( allow_partial : Bool) : List (String × List Bar) → Dict Series →
    List String → Except String (Dict Series × List String)
  | [], prices, skipped => .ok (prices, skipped)
  | (t, data) :: rest, prices, skipped =>
      if data.isEmpty then
        if allow_partial then apPrep allow_partial rest prices (skipped ++ [t])
        else .error s!"No data provided for ticker: {t}"
      else apPrep allow_partial rest (prices.insert t (barsToSeries data)) skipped

/-- Metrics for one ticker (metrics.py lines 228-231). -/
def perTickerMetrics (prices rets benchRets : Series) (rf : ℚ) :
    Except String (PerfMetrics × RelMetrics) := do
  let p ← calculate_performance_metrics prices rf
  let r ← calculate_relative_metrics rets benchRets rf
  pure (p, r)

/-- Per-ticker analysis loop (metrics.py lines 227-236): under
allow-partial a failing ticker is recorded and skipped, otherwise fatal. -/
def apTickerLoop ( allow_partial : Bool) (rf : ℚ) (benchRets : Series) :
    List (String × Series × Series) → Dict (PerfMetrics × RelMetrics) →
    List String → Except String (Dict (PerfMetrics × RelMetrics) × List String)
  | [], acc, failed => .ok (acc, failed)
  | (t, prices, rets) :: rest, acc, failed =>
      match perTickerMetrics prices rets benchRets rf with
      | .ok m => apTickerLoop allow_partial rf benchRets rest (acc.insert t m) failed
      | .error e =>
          if allow_partial then
            apTickerLoop allow_partial rf benchRets rest acc (failed ++ [t])
          else .error s!"Error analyzing ticker {t}: {e}"

/-- Final content of the caller's `weights` dict object after
`analyze_portfolio`: the pops of failed tickers (metrics.py lines 243-245)
mutate it in place unless the skipped-ticker adjustment (lines 184-191)
rebound the local `weights` name to a fresh dict first, or the dict is falsy
(`if weights:`). -/
def apCallerWeights (weightsIn : Option (Dict ℚ)) (skipped failed : List String) :
    Option (Dict ℚ) :=
  match weightsIn with
  | none => none
  | some d =>
      if !failed.isEmpty && !(!skipped.isEmpty && !d.isEmpty) && !d.isEmpty then
        some (d.eraseKeys failed)
      else some d

/-- `analyze_portfolio(tickers_data, benchmark_data, weights, risk_free_rate,
allow_partial)`. -/
def analyze_portfolio (tickers_data : Dict (List Bar)) (benchmark_data : List Bar)
    (weightsIn : Option (Dict ℚ)) (risk_free_rate : ℚ) ( allow_partial : Bool) :
    APRun :=
  if tickers_data.isEmpty then
    ⟨.error "tickers_data cannot be empty", [], [], weightsIn⟩
  else if benchmark_data.isEmpty then
    ⟨.error "benchmark_data cannot be empty", [], [], weightsIn⟩
  else
    match apPrep allow_partial tickers_data.entries Dict.empty [] with
    | .error e => ⟨.error e, [], [], weightsIn⟩
    | .ok (tickerPrices0, skipped) =>
      if tickerPrices0.isEmpty then
        ⟨.error "No valid ticker data could be processed", skipped, [], weightsIn⟩
      else
        let benchSeries := barsToSeries benchmark_data
        let all_prices := tickerPrices0.insert "benchmark" benchSeries
        -- weight adjustment for skipped tickers (metrics.py lines 181-193);
        -- `rebound` records that the local `weights` name was rebound to a
        -- fresh dict, shielding the caller's object from later pops
        let wTruthy := match weightsIn with | some d => !d.isEmpty | none => false
        let rebound := !skipped.isEmpty && wTruthy
        let weightsA : Option (Dict ℚ) :=
          if rebound then
            match weightsIn with
            | some d =>
                let adjusted := d.eraseKeys skipped
                if !adjusted.isEmpty then
                  let weight_sum := adjusted.sumValues
                  let original_sum := d.sumValues
                  some (adjusted.mapValues (fun v => v / weight_sum * original_sum))
                else none
            | none => none
          else weightsIn
        let skipWarnings : List String :=
          if !skipped.isEmpty then
            [s!"Skipped {skipped.length} ticker(s) due to data issues: " ++
              String.intercalate ", " skipped]
          else []
        let dates := alignedDates all_prices
        if dates.isEmpty then
          ⟨.error "No overlapping data found for the given assets and benchmark",
           skipped, [], weightsIn⟩
        else
          let tickerColsD := all_prices.erase "benchmark"
          if tickerColsD.isEmpty then
            ⟨.error "No valid ticker data remains after alignment and cleanup",
             skipped, [], weightsIn⟩
          else
            let benchAligned := alignedCol ((all_prices.get? "benchmark").getD []) dates
            let benchReturns := pctChange benchAligned
            if benchReturns.isEmpty then
              ⟨.error "Unable to calculate returns from price data", skipped, [], weightsIn⟩
            else
              match calculate_performance_metrics benchAligned risk_free_rate with
              | .error e =>
                  ⟨.error s!"Failed to analyze benchmark: {e}", skipped, [], weightsIn⟩
              | .ok benchMetrics =>
                let alignedT := tickerColsD.mapValues (fun s => alignedCol s dates)
                let colTriples := alignedT.entries.map
                  (fun p => (p.1, p.2, pctChange p.2))
                match apTickerLoop allow_partial risk_free_rate benchReturns
                    colTriples Dict.empty [] with
                | .error e => ⟨.error e, skipped, [], weightsIn⟩
                | .ok (tickerMetrics, failed) =>
                  let callerW := apCallerWeights weightsIn skipped failed
                  let failWarnings :=
                    if !failed.isEmpty then
                      [s!"Could not analyze {failed.length} ticker(s): " ++
                        String.intercalate ", " failed]
                    else []
                  let weightsB := if failed.isEmpty then weightsA
                    else weightsA.map (fun d => d.eraseKeys failed)
                  let survT := alignedT.eraseKeys failed
                  if survT.isEmpty then
                    ⟨.error "No tickers could be successfully analyzed",
                     skipped, failed, callerW⟩
                  else
                    let availableTickers := survT.keys
                    let nAvail : ℚ := (availableTickers.length : ℚ)
                    let warrSel : List ℚ × Bool :=
                      match weightsB with
                      | none => (availableTickers.map (fun _ => 1 / nAvail), false)
                      | some d =>
                          let arr := availableTickers.map (fun t => (d.get? t).getD 0)
                          if arr.sum = 0 then
                            (availableTickers.map (fun _ => 1 / nAvail), true)
                          else (arr.map (fun w => w / arr.sum), false)
                    let warr := warrSel.1
                    let equalWeightsUsed := warrSel.2
                    let zeroWarnings :=
                      if equalWeightsUsed then
                        ["Portfolio weights were zero or invalid; using equal weights"]
                      else []
                    let retDates := dates.tail
                    let colVals := survT.values.map (fun s => (pctChange s).map Prod.snd)
                    let portVals := (List.zipWith (fun w vs => vs.map (fun v => w * v))
                        warr colVals).foldl (fun acc vs => List.zipWith (· + ·) acc vs)
                        (retDates.map (fun _ => (0 : ℚ)))
                    let portfolioReturns : Series := retDates.zip portVals
                    let portfolioPrices : Series :=
                      retDates.zip ((cumprod (portVals.map (1 + ·))).map (· * 100))
                    match perTickerMetrics portfolioPrices portfolioReturns benchReturns
                        risk_free_rate with
                    | .error e =>
                        ⟨.error s!"Error analyzing portfolio: {e}", skipped, failed, callerW⟩
                    | .ok pm =>
                      let warnings := skipWarnings ++ failWarnings ++ zeroWarnings
                      let warning_obj :=
                        if !warnings.isEmpty || !skipped.isEmpty || !failed.isEmpty then
                          some (AnalysisWarning.mk
                            (if warnings.isEmpty then
                              "Some tickers had issues during analysis"
                            else String.intercalate " " warnings)
                            ((skipped ++ failed).dedup))
                        else none
                      ⟨.ok ⟨benchMetrics, tickerMetrics, pm, warning_obj⟩,
                       skipped, failed, callerW⟩

/-! ## Coordinator (`analyze_performance`, nodes/analyst_agents/performance.py) -/

structure Status where
  key : String
  value : Bool
deriving Repr, DecidableEq

structure AnalysisAgent where
  status : Status
  reasoning : String
  advices : Option (List String)
deriving Repr, DecidableEq

/-- The slice of the workflow `State` the coordinator reads and writes:
`data.portfolio`, `data.benchmark` and `data.analysis["performance"]`. -/
structure PerfState where
  portfolio : Portfolio
  benchmark : Option (String × String)
  performance : Option AnalysisAgent
  showReasoning : Bool
deriving Repr, DecidableEq

/-- Modelled from the spec: the `Benchmarks` enum of `src/data/models.py` is
imported by the coordinator but its definition is absent from the sources
provided.  Per the spec, the default benchmark is a broad-market index
ticker; the assembler's fallback table identifies it as ACWI, paired with a
description shown only inside the LLM prompt. -/
def benchmarksACWIValue : String × String :=
  ("ACWI", "MSCI All Country World Index - a global equity benchmark")

/-- Data-quality warning context block (performance.py lines 35-40). -/
def warningContext (w : Option DataQualityWarning) : String :=
  match w with
  | none => ""
  | some dw =>
      let base := s!"\n\nDATA QUALITY WARNING: {dw.message}"
      if !dw.missing_tickers.isEmpty then
        base ++ "\nMissing/problematic tickers: " ++
          String.intercalate ", " dw.missing_tickers
      else base

/-- Analysis warning context block (performance.py lines 80-83). -/
def analysisWarningContext (w : Option AnalysisWarning) : String :=
  match w with
  | none => ""
  | some aw =>
      let base := s!"\n\nANALYSIS WARNING: {aw.message}"
      if !aw.affected_tickers.isEmpty then
        base ++ "\nAffected tickers: " ++
          String.intercalate ", " aw.affected_tickers
      else base

/-- The failure result installed when `all_data` raises (performance.py
lines 47-67). -/
def dataFailureAgent (error_message : String) : AnalysisAgent :=
  AnalysisAgent.mk (Status.mk "is_performing" false)
    (s!"Unable to complete performance analysis due to data availability issues.\n\nError: {error_message}\n\n" ++
     "This typically occurs when:\n" ++
     "- Stock ticker symbols are invalid or delisted\n" ++
     "- Financial data provider is temporarily unavailable\n" ++
     "- Network connectivity issues prevent data download\n" ++
     "- API rate limits have been exceeded\n\n" ++
     "Please verify that all portfolio holdings have valid ticker symbols and try again. " ++
     "If the problem persists, consider using alternative benchmark tickers or checking " ++
     "your data provider connection.")
    (some
      ["Verify all portfolio ticker symbols are valid and currently trading",
       "Check your internet connection and financial data API status",
       "Consider reducing the number of holdings if hitting rate limits",
       "Try again after a few minutes if experiencing temporary connectivity issues"])

/-- The failure result installed when `analyze_portfolio` raises
(performance.py lines 89-103). -/
def analysisFailureAgent (error_message : String) : AnalysisAgent :=
  AnalysisAgent.mk (Status.mk "is_performing" false)
    (s!"Performance analysis could not be completed due to data quality issues.\n\nError: {error_message}\n\n" ++
     "The available data was insufficient to calculate reliable performance metrics. " ++
     "This may indicate that most or all portfolio holdings have data issues.")
    (some
      ["Review portfolio holdings for invalid or delisted securities",
       "Ensure holdings have sufficient trading history (at least 2 years recommended)",
       "Consider replacing problematic holdings with more liquid alternatives",
       "Verify that benchmark ticker is valid and has available historical data"])

/-- The LLM prompt (performance.py lines 115-182): numeric metric values are
rendered through `Repr` of their exact rational determinants; the prompt only
feeds the external model oracle. -/
def promptFor (warning_context : String) (holdingsContext : List Holding)
    (portfolioMetric : PerfMetrics × RelMetrics) (benchmarkMetric : PerfMetrics)
    (benchmark_ticker benchmark_description : String) (strategy : Strategy) :
    String :=
  let hc := reprStr holdingsContext
  let pmRepr := reprStr portfolioMetric
  let bmRepr := reprStr benchmarkMetric
  "You are a financial data analyst AI specializing in portfolio performance analysis." ++
  warning_context ++
  "\n\n## PORTFOLIO DATA\n" ++ hc ++
  "\n\n### PORTFOLIO METRICS:\n" ++ pmRepr ++
  s!"\n\n## BENCHMARK DATA:\n### Benchmark being used - ({benchmark_ticker})\n" ++
  benchmark_description ++
  s!"\n\n### BENCHMARK METRICS for ({benchmark_ticker}):\n" ++ bmRepr ++
  "\n\n## STRATEGY DATA\n### EXPECTED RETURNS\n" ++ strategy.expected_returns

/-- `analyze_performance(state)` over the fetch and LLM oracles. -/
def analyze_performance (fetch : String → FetchResult)
    (llm : String → AnalysisAgent) (st : PerfState) : PerfState :=
  let benchmark := st.benchmark.getD benchmarksACWIValue
  let benchmark_ticker := benchmark.1
  let benchmark_description := benchmark.2
  match (all_data fetch st.portfolio benchmark_ticker true).result with
  | .error e =>
      PerfState.mk st.portfolio (some benchmark) (some (dataFailureAgent e))
        st.showReasoning
  | .ok r =>
      let wc := warningContext r.warning
      let run := analyze_portfolio r.portfolio_data r.benchmark_data
        (some r.weights) (2 / 100) true
      match run.result with
      | .error e =>
          PerfState.mk st.portfolio (some benchmark)
            (some (analysisFailureAgent e)) st.showReasoning
      | .ok metrics =>
          let wc2 := wc ++ analysisWarningContext metrics.warning
          let holdingsContext := st.portfolio.holdings.filter
            (fun h => match h.symbol with
              | some s => r.portfolio_data.contains s
              | none => false)
          let prompt := promptFor wc2 holdingsContext metrics.portfolio
            metrics.benchmark benchmark_ticker benchmark_description
            st.portfolio.strategy
          PerfState.mk st.portfolio (some benchmark) (some (llm prompt))
            st.showReasoning

/-- Test bar builder: a bar whose OHLC fields all carry the close. -/
def mkBar (d : ℕ) (c : ℚ) : Bar := ⟨d, c, c, c, c, 0⟩

def mkHolding (s : String) (w : ℚ) : Holding := ⟨some s, some w⟩

def stratEx : Strategy := ⟨"steady growth"⟩

/-- Concrete engine input: AAA is flat (its per-ticker metrics fail on zero
volatility), BBB rises with varying returns, CCC has no data (skipped). -/
def tdFlatSkip : Dict (List Bar) :=
  ⟨[("AAA", [mkBar 0 100, mkBar 1 100, mkBar 2 100]),
    ("BBB", [mkBar 0 100, mkBar 1 110, mkBar 2 115]),
    ("CCC", [])]⟩

/-- As `tdFlatSkip` but without the empty-data ticker. -/
def tdFlatOnly : Dict (List Bar) :=
  ⟨[("AAA", [mkBar 0 100, mkBar 1 100, mkBar 2 100]),
    ("BBB", [mkBar 0 100, mkBar 1 110, mkBar 2 115])]⟩

def benchBars3 : List Bar := [mkBar 0 100, mkBar 1 105, mkBar 2 110]

def weightsABC : Dict ℚ := ⟨[("AAA", 50), ("BBB", 30), ("CCC", 20)]⟩

def weightsAB : Dict ℚ := ⟨[("AAA", 50), ("BBB", 50)]⟩

/-! ### Assembler fixtures (claims about `all_data`) -/

/-- All tickers deliver the same healthy two-bar history. -/
def fetchTwoBars : String → FetchResult :=
  fun _ => .ok [mkBar 0 100, mkBar 1 110]

/-- Two-holding portfolio with weights 60/40. -/
def pfAB60 : Portfolio :=
  ⟨"p", [mkHolding "AAA" 60, mkHolding "BBB" 40], stratEx⟩

/-- The `all_data` result for `pfAB60` under `fetchTwoBars` with benchmark
SPY: nothing is dropped and the weights pass through unchanged. -/
def resAB60 : AllDataResult :=
  ⟨⟨[("AAA", [mkBar 0 100, mkBar 1 110]), ("BBB", [mkBar 0 100, mkBar 1 110])]⟩,
   [mkBar 0 100, mkBar 1 110],
   ⟨[("AAA", 60), ("BBB", 40)]⟩, none⟩

/-- C1 counterexample portfolio: the whole positive weight sits on BBB, the
surviving ticker AAA has weight 0. -/
def pfC1 : Portfolio :=
  ⟨"p", [mkHolding "AAA" 0, mkHolding "BBB" 100], stratEx⟩

/-- C1 counterexample oracle: BBB returns a single bar (insufficient), every
other ticker two bars. -/
def fetchC1 : String → FetchResult :=
  fun t => if t = "BBB" then .ok [mkBar 0 1] else .ok [mkBar 0 1, mkBar 1 1]

/-- C3 counterexample (a): the benchmark ACWI yields no data while its
fallback SPY would succeed - but SPY is not a holding, so it is never
fetched. -/
def pfC3a : Portfolio := ⟨"p", [mkHolding "VTI" 100], stratEx⟩

def fetchC3a : String → FetchResult :=
  fun t => if t = "ACWI" then .ok [] else .ok [mkBar 0 100, mkBar 1 110]

/-- C3 counterexample (b) / witness portfolio: SPY is itself a holding, so the
fallback for the dataless benchmark ACWI is available in the fetched map. -/
def pfC3b : Portfolio :=
  ⟨"p", [mkHolding "VTI" 60, mkHolding "SPY" 40], stratEx⟩

/-- C10 witness portfolio: the benchmark SPY is also a holding. -/
def pfC10 : Portfolio :=
  ⟨"p", [mkHolding "SPY" 40, mkHolding "VTI" 60], stratEx⟩

/-! # Theorems -/

/-! ## Retry wrapper -/

/-- A permanently rate-limited backend drives the loop through every allowed
iteration, sleeping `2^(j-1) + jitter` after each attempt `j` that still has
an iteration left, and finally re-raises. -/
theorem retryLoop_rateLimited (msgs : ℕ → String) (jitter : ℕ → ℚ) (timeoutS : ℕ) :
    ∀ (n : ℕ), 1 ≤ n → ∀ (i : ℕ) (sleeps : List ℚ),
      retryLoop (fun j => .exc true (msgs j)) jitter timeoutS n i sleeps =
        ⟨.error (msgs (i + n - 1)), i + n - 1,
         sleeps ++ (List.range' i (n - 1)).map (fun j => (2 : ℚ) ^ (j - 1) + jitter j)⟩ := by
  intro n
  induction n with
  | zero => intro h; exact absurd h (by omega)
  | succ m ih =>
    intro _ i sleeps
    rcases Nat.eq_zero_or_pos m with hm | hm
    · subst hm
      simp [retryLoop]
    · have hm' : m ≠ 0 := by omega
      have step : retryLoop (fun j => .exc true (msgs j)) jitter timeoutS (m + 1) i sleeps =
          retryLoop (fun j => .exc true (msgs j)) jitter timeoutS m (i + 1)
            (sleeps ++ [(2 : ℚ) ^ (i - 1) + jitter i]) := by
        simp [retryLoop, hm']
      rw [step, ih hm (i + 1) _]
      have h1 : i + 1 + m - 1 = i + m := by omega
      have h2 : i + (m + 1) - 1 = i + m := by omega
      have h3 : List.range' i (m + 1 - 1) = i :: List.range' (i + 1) (m - 1) := by
        rw [show m + 1 - 1 = (m - 1) + 1 by omega, List.range'_succ]
      rw [h1, h2, h3]
      simp

/-- A permanently timing-out backend drives the loop through every allowed
iteration without sleeping and finally raises the last timeout. -/
theorem retryLoop_timedOut (jitter : ℕ → ℚ) (timeoutS : ℕ) :
    ∀ (n : ℕ), 1 ≤ n → ∀ (i : ℕ) (sleeps : List ℚ),
      retryLoop (fun _ => .timeout) jitter timeoutS n i sleeps =
        ⟨.error (s!"Polygon request timed out after {timeoutS}s on attempt {i + n - 1}"),
         i + n - 1, sleeps⟩ := by
  intro n
  induction n with
  | zero => intro h; exact absurd h (by omega)
  | succ m ih =>
    intro _ i sleeps
    rcases Nat.eq_zero_or_pos m with hm | hm
    · subst hm
      simp [retryLoop]
    · have hm' : m ≠ 0 := by omega
      have step : retryLoop (fun _ => .timeout) jitter timeoutS (m + 1) i sleeps =
          retryLoop (fun _ => .timeout) jitter timeoutS m (i + 1) sleeps := by
        simp [retryLoop, hm']
      rw [step, ih hm (i + 1) _]
      rw [show i + 1 + m - 1 = i + (m + 1) - 1 by omega]

/-- The attempt counter only grows along the loop. -/
theorem retryLoop_attempts_ge (backend : ℕ → Attempt) (jitter : ℕ → ℚ) (timeoutS : ℕ) :
    ∀ (n i : ℕ) (sleeps : List ℚ),
      i ≤ (retryLoop backend jitter timeoutS n i sleeps).attempts := by
  intro n
  induction n with
  | zero => intro i sleeps; simp [retryLoop]
  | succ m ih =>
    intro i sleeps
    simp only [retryLoop]
    cases backend i with
    | ok bars => simp
    | timeout =>
        by_cases hm : m = 0
        · simp [hm]
        · simpa [hm] using Nat.le_trans (by omega) (ih (i + 1) sleeps)
    | exc rl msg =>
        by_cases hc : rl = true ∧ m ≠ 0
        · simpa [hc] using Nat.le_trans (by omega) (ih (i + 1) _)
        · simp [hc]

/-- Against a backend that never returns a value, the loop always ends in an
exception. -/
theorem retryLoop_never_ok (backend : ℕ → Attempt) (jitter : ℕ → ℚ) (timeoutS : ℕ)
    (hb : ∀ i bars, backend i ≠ .ok bars) :
    ∀ (n i : ℕ) (sleeps : List ℚ),
      ∃ e, (retryLoop backend jitter timeoutS n i sleeps).result = .error e := by
  intro n
  induction n with
  | zero => intro i sleeps; exact ⟨"", rfl⟩
  | succ m ih =>
    intro i sleeps
    simp only [retryLoop]
    cases hbi : backend i with
    | ok bars => exact absurd hbi (hb i bars)
    | timeout =>
        by_cases hm : m = 0
        · subst hm; simp
        · simpa [hm] using ih (i + 1) sleeps
    | exc rl msg =>
        by_cases hc : rl = true ∧ m ≠ 0
        · simpa [hc] using ih (i + 1) _
        · exact ⟨msg, by simp [hc]⟩

/-- C4 counterexample: with the default configuration (`max_retries = 3`,
backoff base 1s, zero jitter) against a permanently rate-limited backend, the
fetcher does return an empty list, but only after 4 attempts (the loop guard
`attempt <= max_retries` is read before the increment, so `max_retries`
counts retries, not attempts) and with sleeps 1s, 2s, 4s — not after 3
attempts with sleeps 1s, 2s as claimed. -/
theorem retry_termination_cex :
    (get_stock_history (fun _ => .exc true "429 Too Many Requests") (fun _ => 0) 10 3).result = .ok []
    ∧ (get_stock_history (fun _ => .exc true "429 Too Many Requests") (fun _ => 0) 10 3).attempts = 4
    ∧ (get_stock_history (fun _ => .exc true "429 Too Many Requests") (fun _ => 0) 10 3).sleeps = [1, 2, 4]
    ∧ ¬((get_stock_history (fun _ => .exc true "429 Too Many Requests") (fun _ => 0) 10 3).attempts = 3
        ∧ (get_stock_history (fun _ => .exc true "429 Too Many Requests") (fun _ => 0) 10 3).sleeps = [1, 2]) :=
  ⟨by decide, by decide, by decide, by decide⟩

/-- C4 amended: against a backend failing every attempt, the fetcher returns
an empty list after exactly `max_retries + 1` attempts (4 under the default
`max_retries = 3`); when every failure is a rate-limit error the sleeps are
`base * 2 ^ (j - 1) + jitter_j` for the first `max_retries` attempts `j`
(1s, 2s, 4s plus jitter under the defaults); when every failure is a timeout
no sleeps are performed. -/
theorem retry_termination_amended (msgs : ℕ → String) (jitter : ℕ → ℚ)
    (timeoutS maxRetries : ℕ) :
    (get_stock_history (fun j => .exc true (msgs j)) jitter timeoutS maxRetries).result = .ok []
    ∧ (get_stock_history (fun j => .exc true (msgs j)) jitter timeoutS maxRetries).attempts
        = maxRetries + 1
    ∧ (get_stock_history (fun j => .exc true (msgs j)) jitter timeoutS maxRetries).sleeps
        = (List.range' 1 maxRetries).map (fun j => (2 : ℚ) ^ (j - 1) + jitter j)
    ∧ (get_stock_history (fun _ => .timeout) jitter timeoutS maxRetries).result = .ok []
    ∧ (get_stock_history (fun _ => .timeout) jitter timeoutS maxRetries).attempts = maxRetries + 1
    ∧ (get_stock_history (fun _ => .timeout) jitter timeoutS maxRetries).sleeps = [] := by
  have hrl := retryLoop_rateLimited msgs jitter timeoutS (maxRetries + 1) (by omega) 1 []
  have hto := retryLoop_timedOut jitter timeoutS (maxRetries + 1) (by omega) 1 []
  have e1 : (1 : ℕ) + (maxRetries + 1) - 1 = maxRetries + 1 := by omega
  rw [e1] at hrl hto
  refine ⟨?_, ?_, ?_, ?_, ?_, ?_⟩ <;>
    simp [get_stock_history, call_with_retries, hrl, hto]

/-- C5 counterexample: an empty vendor result does not trigger a retry — the
wrapper returns it as a success at once.  Here the vendor is empty on attempt
1 and would have data on attempt 2, yet the fetcher stops after 1 attempt and
returns the empty history. -/
theorem retry_triggers_cex :
    (get_stock_history (fun i => if i = 1 then .ok [] else .ok [mkBar 0 1]) (fun _ => 0) 10 3).attempts = 1
    ∧ (get_stock_history (fun i => if i = 1 then .ok [] else .ok [mkBar 0 1]) (fun _ => 0) 10 3).result = .ok []
    ∧ ¬(2 ≤ (get_stock_history (fun i => if i = 1 then .ok [] else .ok [mkBar 0 1]) (fun _ => 0) 10 3).attempts) :=
  ⟨by decide, by decide, by decide⟩

/-- C5 amended: a retry is performed after a rate-limit exception and after a
timeout (with at least one retry still allowed); a returned result — empty or
not — is delivered immediately with no retry; and when every attempt fails,
`get_stock_history` returns an empty list instead of raising. -/
theorem retry_triggers_amended (b1 b2 b3 b4 : ℕ → Attempt) (bars1 : List Bar)
    (m1 : String) (jitter : ℕ → ℚ) (timeoutS maxR : ℕ)
    (hmax : 1 ≤ maxR) (h1 : b1 1 = .exc true m1) (h2 : b2 1 = .timeout)
    (hb3 : ∀ i bars, b3 i ≠ .ok bars) (h4 : b4 1 = .ok bars1) :
    2 ≤ (call_with_retries b1 jitter timeoutS maxR).attempts
    ∧ 2 ≤ (call_with_retries b2 jitter timeoutS maxR).attempts
    ∧ (get_stock_history b3 jitter timeoutS maxR).result = .ok []
    ∧ call_with_retries b4 jitter timeoutS maxR = ⟨.ok bars1, 1, []⟩ := by
  have hM : maxR ≠ 0 := by omega
  refine ⟨?_, ?_, ?_, ?_⟩
  · have hred : call_with_retries b1 jitter timeoutS maxR =
        retryLoop b1 jitter timeoutS maxR 2 [(2 : ℚ) ^ (1 - 1) + jitter 1] := by
      simp [call_with_retries, retryLoop, h1, hM]
    rw [hred]
    exact retryLoop_attempts_ge b1 jitter timeoutS maxR 2 _
  · have hred : call_with_retries b2 jitter timeoutS maxR =
        retryLoop b2 jitter timeoutS maxR 2 [] := by
      simp [call_with_retries, retryLoop, h2, hM]
    rw [hred]
    exact retryLoop_attempts_ge b2 jitter timeoutS maxR 2 []
  · obtain ⟨e, he⟩ := retryLoop_never_ok b3 jitter timeoutS hb3 (maxR + 1) 1 []
    simp [get_stock_history, call_with_retries, he]
  · simp [call_with_retries, retryLoop, h4]

/-- Witness for the C5 amended theorem at concrete backends. -/
theorem retry_triggers_amended_witness :
    2 ≤ (call_with_retries (fun _ => .exc true "429") (fun _ => 0) 10 3).attempts
    ∧ 2 ≤ (call_with_retries (fun _ => .timeout) (fun _ => 0) 10 3).attempts
    ∧ (get_stock_history (fun _ => .exc false "boom") (fun _ => 0) 10 3).result = .ok []
    ∧ call_with_retries (fun _ => .ok []) (fun _ => 0) 10 3 = ⟨.ok [], 1, []⟩ :=
  retry_triggers_amended (fun _ => .exc true "429") (fun _ => .timeout)
    (fun _ => .exc false "boom") (fun _ => .ok []) [] "429" (fun _ => 0) 10 3
    (by omega) rfl rfl (fun _ _ h => Attempt.noConfusion h) rfl

/-! ## Metrics engine: flat series -/

theorem pctChange_cons_cons (x y : ℕ × ℚ) (t : Series) :
    pctChange (x :: y :: t) = (y.1, y.2 / x.2 - 1) :: pctChange (y :: t) := rfl

theorem pctChange_length (s : Series) : (pctChange s).length = s.length - 1 := by
  simp [pctChange, List.length_zipWith]

/-- On a constant positive series every daily return is zero. -/
theorem pctChange_const (c : ℚ) (hc : c ≠ 0) :
    ∀ (s : Series), (∀ p ∈ s, p.2 = c) → ∀ q ∈ pctChange s, q.2 = 0
  | [], _, q, hq => by simp [pctChange] at hq
  | [x], _, q, hq => by simp [pctChange] at hq
  | x :: y :: t, h, q, hq => by
      rw [pctChange_cons_cons] at hq
      rcases List.mem_cons.mp hq with hq | hq
      · have hx := h x (by simp)
        have hy := h y (by simp)
        rw [hq]
        simp only []
        rw [hy, hx, div_self hc]
        ring
      · exact pctChange_const c hc (y :: t)
          (fun p hp => h p (List.mem_cons_of_mem _ hp)) q hq

/-- The sample variance of at least two zero observations is (exactly) 0. -/
theorem sampleVar_zeros (l : List ℚ) (hl : 2 ≤ l.length) (h0 : ∀ x ∈ l, x = 0) :
    sampleVar l = some 0 := by
  have hm : mean l = 0 := by simp [mean, List.sum_eq_zero h0]
  rw [sampleVar, if_neg (by omega)]
  have hz : (l.map (fun x => (x - mean l) ^ 2)).sum = 0 := by
    apply List.sum_eq_zero
    intro y hy
    obtain ⟨x, hx, rfl⟩ := List.mem_map.mp hy
    rw [h0 x hx, hm]
    ring
  rw [hz]
  simp

/-- On a strictly ascending series of length ≥ 2, the first date precedes the
last. -/
theorem first_lt_last (s : Series)
    (hasc : s.Pairwise (fun a b => a.1 < b.1)) (hl : 2 ≤ s.length) :
    (s.headD (0, 1)).1 < ((s.getLast?).getD (0, 1)).1 := by
  match s, hasc, hl with
  | x :: y :: t, hasc, _ =>
    have hne : (y :: t) ≠ [] := by simp
    have hmem : (y :: t).getLast hne ∈ y :: t := List.getLast_mem hne
    have hlt : ∀ b ∈ y :: t, x.1 < b.1 := (List.pairwise_cons.mp hasc).1
    have hgl : (x :: y :: t).getLast? = some ((y :: t).getLast hne) := by
      rw [List.getLast?_eq_getLast (x :: y :: t) (by simp), List.getLast_cons hne]
    rw [hgl]
    exact hlt _ hmem

/-- C7: the claim fails at a 2-point flat series.  pandas' sample standard
deviation of the single daily return is NaN (`volSq = none` below), the
`volatility == 0` guard does not fire, and the function returns a result
whose volatility and Sharpe ratio are NaN instead of raising. -/
theorem sharpe_zero_volatility_cex :
    calculate_performance_metrics [(0, 100), (1, 100)] (2 / 100) = .ok ⟨0, 1, 0, none, 0⟩
    ∧ calculate_performance_metrics [(0, 100), (1, 100)] (2 / 100)
        ≠ .error "Cannot calculate Sharpe ratio: volatility is zero"
    ∧ (0 : ℚ) < 100 :=
  ⟨by decide, by decide, by decide⟩

/-- C7 amended: for a flat, strictly positive price series of at least **3**
points with strictly ascending dates, `calculate_performance_metrics` raises
the zero-volatility error (and hence never divides by the zero volatility);
with exactly 2 points the volatility is NaN rather than zero and no error is
raised (see the counterexample). -/
theorem sharpe_zero_volatility_amended (s : Series) (c : ℚ) (rf : ℚ) (hc : 0 < c)
    (hlen : 3 ≤ s.length) (hconst : ∀ p ∈ s, p.2 = c)
    (hasc : s.Pairwise (fun a b => a.1 < b.1)) :
    calculate_performance_metrics s rf =
      .error "Cannot calculate Sharpe ratio: volatility is zero" := by
  have hret0 : ∀ x ∈ (pctChange s).map Prod.snd, x = 0 := by
    intro x hx
    obtain ⟨q, hq, rfl⟩ := List.mem_map.mp hx
    exact pctChange_const c (ne_of_gt hc) s hconst q hq
  have hretlen : 2 ≤ ((pctChange s).map Prod.snd).length := by
    rw [List.length_map, pctChange_length]
    omega
  have hvar : sampleVar ((pctChange s).map Prod.snd) = some 0 :=
    sampleVar_zeros _ hretlen hret0
  have hfl := first_lt_last s hasc (by omega)
  rw [calculate_performance_metrics]
  rw [if_neg (by omega)]
  rw [if_neg (by
    simp only [List.any_eq_true, not_exists]
    intro p
    simp only [not_and, decide_eq_true_eq]
    intro hp
    rw [hconst p hp]
    exact not_le.mpr hc)]
  rw [if_neg (by
    simp only [not_le]
    omega)]
  rw [if_neg (by
    simp only [List.isEmpty_eq_true, ← List.length_eq_zero]
    omega)]
  rw [if_pos (by rw [hvar]; simp)]

/-- Witness for the C7 amended theorem at a concrete 3-point flat series. -/
theorem sharpe_zero_volatility_amended_witness :
    calculate_performance_metrics [(0, 100), (1, 100), (2, 100)] (2 / 100) =
      .error "Cannot calculate Sharpe ratio: volatility is zero" :=
  sharpe_zero_volatility_amended [(0, 100), (1, 100), (2, 100)] 100 (2 / 100)
    (by norm_num) (by decide) (by decide) (by decide)

/-! ## Coordinator degradation -/

theorem append_ne_empty_right (a b : String) (hb : b ≠ "") : a ++ b ≠ "" := by
  intro h
  apply hb
  have hd := congrArg String.data h
  simp only [String.data_append] at hd
  rcases List.append_eq_nil.mp hd with ⟨-, h2⟩
  exact String.ext h2

/-- C2: whenever the assembler (`all_data`) or the engine
(`analyze_portfolio`) fails with its data error, `analyze_performance`
returns — it is a total function, so it cannot raise — and installs a
performance result with status key `"is_performing"`, status value `false`,
non-empty reasoning and a non-empty advice list. -/
theorem coordinator_degradation (fetch : String → FetchResult)
    (llm : String → AnalysisAgent) (st : PerfState)
    (h : (∃ e, (all_data fetch st.portfolio
            ((st.benchmark.getD benchmarksACWIValue).1) true).result = .error e)
       ∨ (∃ r e, (all_data fetch st.portfolio
            ((st.benchmark.getD benchmarksACWIValue).1) true).result = .ok r
          ∧ (analyze_portfolio r.portfolio_data r.benchmark_data
              (some r.weights) (2 / 100) true).result = .error e)) :
    ∃ a, (analyze_performance fetch llm st).performance = some a
      ∧ a.status.key = "is_performing"
      ∧ a.status.value = false
      ∧ a.reasoning ≠ ""
      ∧ ∃ l, a.advices = some l ∧ 1 ≤ l.length := by
  rcases h with ⟨e, he⟩ | ⟨r, e, hr, he⟩
  · refine ⟨dataFailureAgent e, ?_, rfl, rfl, ?_, ⟨_, rfl, by decide⟩⟩
    · simp only [analyze_performance]
      rw [he]
    · exact append_ne_empty_right _ _ (by decide)
  · refine ⟨analysisFailureAgent e, ?_, rfl, rfl, ?_, ⟨_, rfl, by decide⟩⟩
    · simp only [analyze_performance]
      rw [hr]
      simp only []
      rw [he]
    · exact append_ne_empty_right _ _ (by decide)

/-- Witness for C2: a portfolio with no holdings makes the assembler raise,
and the coordinator degrades as stated. -/
theorem coordinator_degradation_witness :
    ∃ a, (analyze_performance (fun _ => .ok [])
        (fun _ => AnalysisAgent.mk (Status.mk "is_performing" true) "r" none)
        (PerfState.mk (Portfolio.mk "p" [] stratEx) (some ("ACWI", "d")) none false)).performance
          = some a
      ∧ a.status.key = "is_performing"
      ∧ a.status.value = false
      ∧ a.reasoning ≠ ""
      ∧ ∃ l, a.advices = some l ∧ 1 ≤ l.length :=
  coordinator_degradation (fun _ => .ok [])
    (fun _ => AnalysisAgent.mk (Status.mk "is_performing" true) "r" none)
    (PerfState.mk (Portfolio.mk "p" [] stratEx) (some ("ACWI", "d")) none false)
    (Or.inl ⟨"Portfolio must have holdings", by decide⟩)

/-! ## Engine frame effect on the caller's weights dict -/

/-- C9: the claim fails when a ticker is also skipped at the data-preparation
stage: the skipped-ticker adjustment rebinds the local `weights` name to a
fresh dict, so the later pops of failed tickers no longer reach the caller's
object.  Here CCC is skipped, AAA's metrics fail, BBB succeeds, the call
returns normally — and the caller's dict still contains AAA. -/
theorem weights_mutation_cex :
    (analyze_portfolio tdFlatSkip benchBars3 (some weightsABC) (2 / 100) true).failed = ["AAA"]
    ∧ (analyze_portfolio tdFlatSkip benchBars3 (some weightsABC) (2 / 100) true).result.isOk = true
    ∧ weightsABC.contains "AAA" = true
    ∧ (analyze_portfolio tdFlatSkip benchBars3 (some weightsABC) (2 / 100) true).callerWeights
        = some weightsABC :=
  ⟨by decide, by decide, by decide, by decide⟩

set_option maxHeartbeats 2000000 in
/-- C9 amended: with a non-empty weights dict, the failed tickers' keys are
popped from the caller's dict in place exactly when no ticker was skipped at
the data-preparation stage (no rebinding); when some ticker was skipped, the
local name is rebound and the caller's dict is left unchanged. -/
theorem weights_mutation_amended (td : Dict (List Bar)) (bd : List Bar)
    (d : Dict ℚ) (rf : ℚ) (ap : Bool) (res : Except String APResult)
    (sk fl : List String) (cw : Option (Dict ℚ))
    (h : analyze_portfolio td bd (some d) rf ap = ⟨res, sk, fl, cw⟩) :
    (sk = [] → fl ≠ [] → d.entries ≠ [] → cw = some (d.eraseKeys fl))
    ∧ (sk ≠ [] → d.entries ≠ [] → cw = some d) := by
  have leafA : ∀ (r : Except String APResult) (s : List String),
      (⟨r, s, [], some d⟩ : APRun) = ⟨res, sk, fl, cw⟩ →
      (sk = [] → fl ≠ [] → d.entries ≠ [] → cw = some (d.eraseKeys fl))
      ∧ (sk ≠ [] → d.entries ≠ [] → cw = some d) := by
    intro r s hh
    injection hh with h1 h2 h3 h4
    subst h2; subst h3; subst h4
    exact ⟨fun _ hf _ => absurd rfl hf, fun _ _ => rfl⟩
  have leafB : ∀ (r : Except String APResult) (s failed : List String),
      (⟨r, s, failed, apCallerWeights (some d) s failed⟩ : APRun) = ⟨res, sk, fl, cw⟩ →
      (sk = [] → fl ≠ [] → d.entries ≠ [] → cw = some (d.eraseKeys fl))
      ∧ (sk ≠ [] → d.entries ≠ [] → cw = some d) := by
    intro r s failed hh
    injection hh with h1 h2 h3 h4
    subst h2; subst h3; subst h4
    constructor
    · intro hs hf hd
      subst hs
      obtain ⟨y, ys, rfl⟩ := List.exists_cons_of_ne_nil hf
      obtain ⟨p, ps, hdd⟩ := List.exists_cons_of_ne_nil hd
      simp [apCallerWeights, Dict.isEmpty, hdd]
    · intro hs hd
      obtain ⟨y, ys, rfl⟩ := List.exists_cons_of_ne_nil hs
      obtain ⟨p, ps, hdd⟩ := List.exists_cons_of_ne_nil hd
      simp [apCallerWeights, Dict.isEmpty, hdd]
  unfold analyze_portfolio at h
  split at h
  · exact leafA _ _ h
  split at h
  · exact leafA _ _ h
  split at h
  · exact leafA _ _ h
  split at h
  · exact leafA _ _ h
  lift_lets at h
  extract_lets at h
  split at h
  · exact leafA _ _ h
  lift_lets at h
  extract_lets at h
  split at h
  · exact leafA _ _ h
  lift_lets at h
  extract_lets at h
  split at h
  · exact leafA _ _ h
  split at h
  · exact leafA _ _ h
  lift_lets at h
  extract_lets at h
  split at h
  · exact leafA _ _ h
  lift_lets at h
  extract_lets at h
  split at h
  · exact leafB _ _ _ h
  lift_lets at h
  extract_lets at h
  split at h
  · exact leafB _ _ _ h
  lift_lets at h
  extract_lets at h
  exact leafB _ _ _ h

/-- Witness for the C9 amended theorem: no skipped ticker, AAA's metrics
fail, and AAA is removed from the caller's dict in place. -/
theorem weights_mutation_amended_witness :
    (analyze_portfolio tdFlatOnly benchBars3 (some weightsAB) (2 / 100) true).callerWeights
      = some ⟨[("BBB", 50)]⟩ := by
  have h := (weights_mutation_amended tdFlatOnly benchBars3 weightsAB (2 / 100) true
    _ _ _ _ rfl).1 (by decide) (by decide) (by decide)
  exact h.trans (by decide)

/-! ## Dictionary lemmas -/

namespace Dict

variable {α β : Type}

theorem find?_insertEntries (k : String) (v : α) (t : String) :
    ∀ l : List (String × α),
      (insertEntries k v l).find? (fun p => p.1 == t) =
        if t = k then some (k, v) else l.find? (fun p => p.1 == t)
  | [] => by
      simp only [insertEntries]
      by_cases h : t = k
      · rw [List.find?_cons_of_pos _ (by simp [h]), if_pos h]
      · rw [List.find?_cons_of_neg _ (by simp [Ne.symm h]), if_neg h]
  | p :: rest => by
      simp only [insertEntries]
      by_cases hpk : p.1 = k
      · rw [if_pos (by simp [hpk])]
        by_cases htk : t = k
        · rw [List.find?_cons_of_pos _ (by simp [htk]), if_pos htk]
        · rw [List.find?_cons_of_neg _ (by simp [Ne.symm htk]), if_neg htk,
            List.find?_cons_of_neg _ (by simp [hpk]; exact fun hh => htk (hh.symm))]
      · rw [if_neg (by simp [hpk])]
        by_cases hpt : p.1 = t
        · have htk : ¬t = k := fun hh => hpk (hpt.trans hh)
          rw [List.find?_cons_of_pos _ (by simp [hpt]), if_neg htk,
            List.find?_cons_of_pos _ (by simp [hpt])]
        · rw [List.find?_cons_of_neg _ (by simp [hpt]),
            find?_insertEntries k v t rest]
          by_cases htk : t = k
          · rw [if_pos htk, if_pos htk]
          · rw [if_neg htk, if_neg htk,
              List.find?_cons_of_neg _ (by simp [hpt])]

theorem get?_insert (d : Dict α) (k : String) (v : α) (t : String) :
    (d.insert k v).get? t = if t = k then some v else d.get? t := by
  rcases d with ⟨l⟩
  simp only [insert, get?, find?_insertEntries]
  by_cases h : t = k <;> simp [h]

theorem contains_eq_isSome_get? (d : Dict α) (k : String) :
    d.contains k = (d.get? k).isSome := by
  rcases d with ⟨l⟩
  rw [Bool.eq_iff_iff]
  simp [contains, get?, List.any_eq_true, List.find?_isSome]

theorem isEmpty_false_of_get? (d : Dict α) (k : String) (v : α)
    (h : d.get? k = some v) : d.isEmpty = false := by
  rcases d with ⟨l⟩
  rcases l with - | ⟨p, rest⟩
  · simp [get?] at h
  · simp [isEmpty]

theorem find?_filterKey (f : String → Bool) (t : String) :
    ∀ l : List (String × α),
      (l.filter (fun p => f p.1)).find? (fun p => p.1 == t) =
        if f t then l.find? (fun p => p.1 == t) else none
  | [] => by by_cases h : f t <;> simp [h]
  | p :: rest => by
      simp only [List.filter_cons]
      by_cases hfp : f p.1 = true
      · rw [if_pos hfp]
        by_cases hpt : p.1 = t
        · rw [List.find?_cons_of_pos _ (by simp [hpt]),
            if_pos (by rw [← hpt]; exact hfp),
            List.find?_cons_of_pos _ (by simp [hpt])]
        · rw [List.find?_cons_of_neg _ (by simp [hpt]), find?_filterKey f t rest]
          by_cases hft : f t = true
          · rw [if_pos hft, if_pos hft,
              List.find?_cons_of_neg _ (by simp [hpt])]
          · rw [if_neg hft, if_neg hft]
      · rw [if_neg hfp, find?_filterKey f t rest]
        by_cases hpt : p.1 = t
        · have hft : ¬f t = true := by rw [← hpt]; exact hfp
          rw [if_neg hft, if_neg hft]
        · by_cases hft : f t = true
          · rw [if_pos hft, if_pos hft,
              List.find?_cons_of_neg _ (by simp [hpt])]
          · rw [if_neg hft, if_neg hft]

theorem get?_erase (d : Dict α) (k t : String) :
    (d.erase k).get? t = if t = k then none else d.get? t := by
  rcases d with ⟨l⟩
  have : ∀ p : String × α, (p.1 != k) = (fun s => s != k) p.1 := fun _ => rfl
  simp only [erase, get?]
  rw [show (fun p : String × α => p.1 != k) = (fun p : String × α => (fun s => s != k) p.1) from rfl]
  rw [find?_filterKey (fun s => s != k) t l]
  by_cases h : t = k <;> simp [h]

theorem get?_eraseKeys (d : Dict α) (ks : List String) (t : String) :
    (d.eraseKeys ks).get? t = if ks.contains t then none else d.get? t := by
  rcases d with ⟨l⟩
  simp only [eraseKeys, get?]
  rw [show (fun p : String × α => !ks.contains p.1)
        = (fun p : String × α => (fun s => !ks.contains s) p.1) from rfl]
  rw [find?_filterKey (fun s => !ks.contains s) t l]
  by_cases h : t ∈ ks <;> simp [h]

theorem get?_mapValues (f : α → β) (d : Dict α) (t : String) :
    (d.mapValues f).get? t = (d.get? t).map f := by
  rcases d with ⟨l⟩
  simp only [mapValues, get?]
  induction l with
  | nil => rfl
  | cons p rest ih =>
      by_cases hpt : p.1 = t
      · rw [List.map_cons, List.find?_cons_of_pos _ (by simp [hpt]),
          List.find?_cons_of_pos _ (by simp [hpt])]
        rfl
      · rw [List.map_cons, List.find?_cons_of_neg _ (by simp [hpt]),
          List.find?_cons_of_neg _ (by simp [hpt])]
        exact ih

theorem values_mapValues (f : α → β) (d : Dict α) :
    (d.mapValues f).values = d.values.map f := by
  rcases d with ⟨l⟩
  simp [mapValues, values, List.map_map]

theorem sum_map_mul (l : List ℚ) (c : ℚ) : (l.map (fun w => w * c)).sum = l.sum * c := by
  induction l with
  | nil => simp
  | cons x rest ih => simp [ih, add_mul]

theorem sumValues_mapValues_mul (d : Dict ℚ) (c : ℚ) :
    (d.mapValues (fun w => w * c)).sumValues = d.sumValues * c := by
  simp [sumValues, values_mapValues, sum_map_mul]

theorem mem_insertEntries (k : String) (v : α) :
    ∀ (l : List (String × α)) (p : String × α),
      p ∈ insertEntries k v l → p = (k, v) ∨ p ∈ l
  | [], p, hp => by
      simp only [insertEntries, List.mem_singleton] at hp
      exact Or.inl hp
  | q :: rest, p, hp => by
      simp only [insertEntries] at hp
      by_cases hqk : q.1 = k
      · rw [if_pos (by simp [hqk])] at hp
        rcases List.mem_cons.mp hp with h | h
        · exact Or.inl h
        · exact Or.inr (List.mem_cons_of_mem _ h)
      · rw [if_neg (by simp [hqk])] at hp
        rcases List.mem_cons.mp hp with h | h
        · exact Or.inr (by simp [h])
        · rcases mem_insertEntries k v rest p h with h' | h'
          · exact Or.inl h'
          · exact Or.inr (List.mem_cons_of_mem _ h')

theorem length_insertEntries (k : String) (v : α) :
    ∀ l : List (String × α),
      (insertEntries k v l).length =
        if l.any (fun p => p.1 == k) then l.length else l.length + 1
  | [] => by simp [insertEntries]
  | q :: rest => by
      by_cases hqk : q.1 = k
      · simp [insertEntries, hqk]
      · simp only [insertEntries, beq_iff_eq, hqk, if_false, List.length_cons,
          List.any_cons]
        rw [length_insertEntries k v rest]
        by_cases h : rest.any (fun p => p.1 == k) <;> simp [h, hqk]

theorem size_insert_of_not_contains (d : Dict α) (k : String) (v : α)
    (h : d.contains k = false) : (d.insert k v).size = d.size + 1 := by
  rcases d with ⟨l⟩
  simp only [insert, size, length_insertEntries]
  simp only [contains] at h
  simp [h]

theorem contains_insert (d : Dict α) (k : String) (v : α) (t : String) :
    (d.insert k v).contains t = true ↔ t = k ∨ d.contains t = true := by
  simp only [contains_eq_isSome_get?, get?_insert]
  by_cases h : t = k <;> simp [h]

theorem entries_ne_nil_of_get? (d : Dict α) (t : String) (v : α)
    (h : d.get? t = some v) : d.entries ≠ [] := by
  intro hnil
  rcases d with ⟨l⟩
  subst hnil
  simp [get?] at h

end Dict

/-! ## Orchestrator lemmas and failure isolation -/

theorem fhc_get?_aux (fetch : String → FetchResult) :
    ∀ (l : List String) (acc : Dict (List Bar)) (t : String),
      (List.foldl (fun acc t =>
        match fetch t with
        | .ok bars => if bars.isEmpty then acc else acc.insert t bars
        | .raised _ => acc) acc l).get? t =
      if t ∈ l ∧ goodFetch fetch t = true then some (fetchBars fetch t)
      else acc.get? t
  | [], acc, t => by simp
  | k :: rest, acc, t => by
      rw [List.foldl_cons, fhc_get?_aux fetch rest _ t]
      by_cases hmem : t ∈ rest ∧ goodFetch fetch t = true
      · rw [if_pos hmem, if_pos ⟨List.mem_cons_of_mem _ hmem.1, hmem.2⟩]
      · rw [if_neg hmem]
        by_cases htk : t = k
        · subst htk
          cases hft : fetch t with
          | ok bars =>
              by_cases hbe : bars.isEmpty
              · have hg : goodFetch fetch t = false := by simp [goodFetch, hft, hbe]
                rw [if_neg (fun hc => by rw [hg] at hc; exact absurd hc.2 (by simp))]
                simp [hft, hbe]
              · have hg : goodFetch fetch t = true := by
                  simp [goodFetch, hft, hbe]
                rw [if_pos ⟨List.mem_cons_self t rest, hg⟩]
                simp [hft, hbe, Dict.get?_insert, fetchBars]
          | raised m =>
              have hg : goodFetch fetch t = false := by simp [goodFetch, hft]
              rw [if_neg (fun hc => by rw [hg] at hc; exact absurd hc.2 (by simp))]
        · have hstep : (match fetch k with
              | .ok bars => if bars.isEmpty then acc else acc.insert k bars
              | .raised _ => acc).get? t = acc.get? t := by
            cases fetch k with
            | ok bars =>
                by_cases hbe : bars.isEmpty
                · simp [hbe]
                · simp [hbe, Dict.get?_insert, htk]
            | raised m => rfl
          rw [hstep,
            if_neg (fun hc => hmem ⟨(List.mem_cons.mp hc.1).resolve_left htk, hc.2⟩)]

/-- The orchestrator's map holds exactly the tickers whose fetch returned
non-empty data, each mapped to those bars. -/
theorem fhc_get? (fetch : String → FetchResult) (tickers : List String) (t : String) :
    (fetch_histories_concurrently fetch tickers).get? t =
      if t ∈ tickers ∧ goodFetch fetch t = true then some (fetchBars fetch t)
      else none := by
  unfold fetch_histories_concurrently
  rw [fhc_get?_aux]
  rfl

theorem fhc_contains (fetch : String → FetchResult) (tickers : List String) (t : String) :
    (fetch_histories_concurrently fetch tickers).contains t = true ↔
      t ∈ tickers ∧ goodFetch fetch t = true := by
  rw [Dict.contains_eq_isSome_get?, fhc_get?]
  by_cases h : t ∈ tickers ∧ goodFetch fetch t = true <;> simp [h]

theorem fhc_size_aux (fetch : String → FetchResult) :
    ∀ (l : List String) (acc : Dict (List Bar)), l.Nodup →
      (∀ t ∈ l, acc.contains t = false) →
      (List.foldl (fun acc t =>
        match fetch t with
        | .ok bars => if bars.isEmpty then acc else acc.insert t bars
        | .raised _ => acc) acc l).size
        = acc.size + (l.filter (goodFetch fetch)).length
  | [], acc, _, _ => by simp
  | k :: rest, acc, hnd, hacc => by
      rw [List.foldl_cons]
      have hndr : rest.Nodup := List.Nodup.of_cons hnd
      have hknr : k ∉ rest := by
        intro hk
        exact (List.nodup_cons.mp hnd).1 hk
      cases hfk : fetch k with
      | ok bars =>
          by_cases hbe : bars.isEmpty
          · have hg : goodFetch fetch k = false := by simp [goodFetch, hfk, hbe]
            have hstep : (match FetchResult.ok bars with
                | FetchResult.ok bars => if bars.isEmpty = true then acc else acc.insert k bars
                | FetchResult.raised _ => acc) = acc := by simp [hbe]
            rw [hstep]
            rw [fhc_size_aux fetch rest acc hndr
              (fun t ht => hacc t (List.mem_cons_of_mem _ ht))]
            simp [List.filter_cons, hg]
          · have hg : goodFetch fetch k = true := by
              simp [goodFetch, hfk, hbe]
            have hstep : (match FetchResult.ok bars with
                | FetchResult.ok bars => if bars.isEmpty = true then acc else acc.insert k bars
                | FetchResult.raised _ => acc) = acc.insert k bars := by simp [hbe]
            rw [hstep]
            have hinv : ∀ t ∈ rest, (acc.insert k bars).contains t = false := by
              intro t ht
              rw [Bool.eq_false_iff]
              intro hc
              rcases (Dict.contains_insert acc k bars t).mp hc with h | h
              · exact hknr (h ▸ ht)
              · rw [hacc t (List.mem_cons_of_mem _ ht)] at h
                exact absurd h (by simp)
            rw [fhc_size_aux fetch rest _ hndr hinv,
              Dict.size_insert_of_not_contains acc k bars (hacc k (List.mem_cons_self k rest))]
            simp [List.filter_cons, hg]
            omega
      | raised m =>
          have hg : goodFetch fetch k = false := by simp [goodFetch, hfk]
          have hstep : (match FetchResult.raised m with
              | FetchResult.ok bars => if bars.isEmpty = true then acc else acc.insert k bars
              | FetchResult.raised _ => acc) = acc := rfl
          rw [hstep]
          rw [fhc_size_aux fetch rest acc hndr
            (fun t ht => hacc t (List.mem_cons_of_mem _ ht))]
          simp [List.filter_cons, hg]

/-- C6: with distinct tickers of which exactly one raises and the rest return
non-empty histories, the orchestrator — a total function, so it cannot raise
— returns a mapping with exactly N−1 entries; in general the mapping holds
exactly the tickers whose fetch returned non-empty data. -/
theorem orchestrator_isolation (fetch : String → FetchResult) (tickers : List String)
    (t0 : String) (m : String) (hnd : tickers.Nodup) (ht0 : t0 ∈ tickers)
    (hraise : fetch t0 = .raised m)
    (hothers : ∀ t ∈ tickers, t ≠ t0 → ∃ bars, fetch t = .ok bars ∧ bars ≠ []) :
    (fetch_histories_concurrently fetch tickers).size = tickers.length - 1
    ∧ ∀ t, (fetch_histories_concurrently fetch tickers).contains t = true ↔
        (t ∈ tickers ∧ goodFetch fetch t = true) := by
  refine ⟨?_, fun t => fhc_contains fetch tickers t⟩
  unfold fetch_histories_concurrently
  rw [fhc_size_aux fetch tickers Dict.empty hnd (fun _ _ => rfl)]
  have hfe : tickers.filter (goodFetch fetch) = tickers.filter (fun t => t != t0) := by
    apply List.filter_congr
    intro x hx
    by_cases hxt : x = t0
    · subst hxt
      simp [goodFetch, hraise]
    · obtain ⟨bars, hfb, hne⟩ := hothers x hx hxt
      obtain ⟨b, bs, rfl⟩ := List.exists_cons_of_ne_nil hne
      simp [goodFetch, hfb, hxt]
  rw [hfe, ← List.Nodup.erase_eq_filter hnd, List.length_erase_of_mem ht0]
  simp [Dict.empty, Dict.size]

/-- Witness for C6 at a concrete three-ticker fetch where only VNQ raises. -/
theorem orchestrator_isolation_witness :
    (fetch_histories_concurrently
      (fun t => if t = "VNQ" then .raised "boom" else .ok [mkBar 0 1])
      ["VTI", "BND", "VNQ"]).size = ["VTI", "BND", "VNQ"].length - 1 :=
  (orchestrator_isolation
    (fun t => if t = "VNQ" then .raised "boom" else .ok [mkBar 0 1])
    ["VTI", "BND", "VNQ"] "VNQ" "boom" (by decide) (by decide) (by decide)
    (by
      intro t ht hne
      simp only [List.mem_cons, List.not_mem_nil, or_false] at ht
      rcases ht with rfl | rfl | rfl
      · exact ⟨[mkBar 0 1], by decide, by decide⟩
      · exact ⟨[mkBar 0 1], by decide, by decide⟩
      · exact absurd rfl hne)).1

/-! ## Fail-fast validation -/

theorem extractHoldings_error_msgs :
    ∀ (hs : List Holding) (acc : List String) (w : Dict ℚ) (e : String),
      extractHoldings hs acc w = .error e →
      e = "Each holding must have symbol and weight attributes"
        ∨ e = "Holding symbol cannot be empty"
  | [], acc, w, e, h => by simp [extractHoldings] at h
  | h0 :: rest, acc, w, e, h => by
      rw [extractHoldings] at h
      rcases hs0 : h0.symbol with - | s
      · simp only [hs0] at h
        injection h with hh
        exact Or.inl hh.symm
      · rcases hw0 : h0.weight with - | wv
        · simp only [hs0, hw0] at h
          injection h with hh
          exact Or.inl hh.symm
        · simp only [hs0, hw0] at h
          by_cases hse : s = ""
          · rw [if_pos hse] at h
            injection h with hh
            exact Or.inr hh.symm
          · rw [if_neg hse] at h
            exact extractHoldings_error_msgs rest _ _ e h

theorem extractHoldings_error_of_bad :
    ∀ (hs : List Holding) (acc : List String) (w : Dict ℚ),
      (∃ h ∈ hs, h.symbol = none ∨ h.weight = none ∨ h.symbol = some "") →
      ∃ e, extractHoldings hs acc w = .error e
  | [], _, _, hbad => by simp at hbad
  | h0 :: rest, acc, w, hbad => by
      rcases hs0 : h0.symbol with - | s
      · exact ⟨"Each holding must have symbol and weight attributes",
          by rw [extractHoldings]; simp [hs0]⟩
      · rcases hw0 : h0.weight with - | wv
        · exact ⟨"Each holding must have symbol and weight attributes",
            by rw [extractHoldings]; simp [hs0, hw0]⟩
        · by_cases hse : s = ""
          · exact ⟨"Holding symbol cannot be empty",
              by rw [extractHoldings]; simp [hs0, hw0, hse]⟩
          · have hrest : ∃ h ∈ rest, h.symbol = none ∨ h.weight = none ∨ h.symbol = some "" := by
              obtain ⟨h, hmem, hcase⟩ := hbad
              rcases List.mem_cons.mp hmem with rfl | hmem'
              · rcases hcase with hc | hc | hc
                · rw [hs0] at hc; cases hc
                · rw [hw0] at hc; cases hc
                · rw [hs0] at hc
                  injection hc with hc
                  exact absurd hc hse
              · exact ⟨h, hmem', hcase⟩
            obtain ⟨e, he⟩ := extractHoldings_error_of_bad rest (acc ++ [s]) (w.insert s wv) hrest
            refine ⟨e, ?_⟩
            rw [extractHoldings]
            simp only [hs0, hw0]
            rw [if_neg hse]
            exact he

theorem mem_values_insert {α : Type} (d : Dict α) (k : String) (x : α) (v : α)
    (h : v ∈ (d.insert k x).values) : v = x ∨ v ∈ d.values := by
  rcases d with ⟨l⟩
  simp only [Dict.insert, Dict.values] at h ⊢
  obtain ⟨p, hp, rfl⟩ := List.mem_map.mp h
  rcases Dict.mem_insertEntries k x l p hp with h' | h'
  · exact Or.inl (by rw [h'])
  · exact Or.inr (List.mem_map_of_mem _ h')

theorem extractHoldings_values :
    ∀ (hs : List Holding) (acc : List String) (w : Dict ℚ) (ts : List String)
      (w0 : Dict ℚ), extractHoldings hs acc w = .ok (ts, w0) →
      ∀ v ∈ w0.values, v ∈ w.values ∨ ∃ h ∈ hs, h.weight = some v
  | [], acc, w, ts, w0, hok, v, hv => by
      rw [extractHoldings] at hok
      injection hok with h1
      injection h1 with h1 h2
      subst h2
      exact Or.inl hv
  | h0 :: rest, acc, w, ts, w0, hok, v, hv => by
      rw [extractHoldings] at hok
      rcases hs0 : h0.symbol with - | s
      · simp only [hs0] at hok; cases hok
      · rcases hw0 : h0.weight with - | wv
        · simp only [hs0, hw0] at hok; cases hok
        · simp only [hs0, hw0] at hok
          by_cases hse : s = ""
          · rw [if_pos hse] at hok; cases hok
          · rw [if_neg hse] at hok
            rcases extractHoldings_values rest (acc ++ [s]) (w.insert s wv) ts w0
                hok v hv with h' | ⟨h, hm, hw⟩
            · rcases mem_values_insert w s wv v h' with h'' | h''
              · exact Or.inr ⟨h0, List.mem_cons_self _ _, by rw [hw0, h'']⟩
              · exact Or.inl h''
            · exact Or.inr ⟨h, List.mem_cons_of_mem _ hm, hw⟩

theorem all_zero_of_nonneg_sum_nonpos :
    ∀ (l : List ℚ), (∀ x ∈ l, 0 ≤ x) → l.sum ≤ 0 → ∀ x ∈ l, x = 0
  | [], _, _, x, hx => by simp at hx
  | y :: rest, hn, hs, x, hx => by
      have hyn : 0 ≤ y := hn y (List.mem_cons_self _ _)
      have hrn : ∀ z ∈ rest, 0 ≤ z := fun z hz => hn z (List.mem_cons_of_mem _ hz)
      have hrs : 0 ≤ rest.sum := List.sum_nonneg hrn
      rw [List.sum_cons] at hs
      rcases List.mem_cons.mp hx with rfl | hx'
      · linarith
      · exact all_zero_of_nonneg_sum_nonpos rest hrn (by linarith) x hx'

/-- C8: each of the four validation failures — empty benchmark string, empty
holdings list, a holding without a (non-empty) symbol or without a weight,
and a non-positive total weight (weights being non-negative per the data
model) — makes `all_data` raise one of its validation `ValueError`s, and no
fetch call is issued (`fetched = []`). -/
theorem failfast_validation (fetch : String → FetchResult) (pf : Portfolio)
    (bt : String) (ap : Bool)
    (hbad : bt = ""
      ∨ pf.holdings = []
      ∨ (∃ h ∈ pf.holdings, h.symbol = none ∨ h.weight = none ∨ h.symbol = some "")
      ∨ ((∀ h ∈ pf.holdings, ∃ wv, h.weight = some wv ∧ 0 ≤ wv)
          ∧ (pf.holdings.map (fun h => h.weight.getD 0)).sum ≤ 0)) :
    ∃ e, (all_data fetch pf bt ap).result = .error e
      ∧ e ∈ ["benchmark_ticker must be a non-empty string",
             "Portfolio must have holdings",
             "Each holding must have symbol and weight attributes",
             "Holding symbol cannot be empty",
             "Portfolio contains no valid tickers",
             "Portfolio weights must sum to a positive value"]
      ∧ (all_data fetch pf bt ap).fetched = [] := by
  unfold all_data
  by_cases hbt : bt = ""
  · rw [if_pos hbt]
    exact ⟨_, rfl, by simp, rfl⟩
  · rw [if_neg hbt]
    by_cases hhe : pf.holdings.isEmpty
    · rw [if_pos hhe]
      exact ⟨_, rfl, by simp, rfl⟩
    · rw [if_neg hhe]
      have hne : pf.holdings ≠ [] := by
        intro hn
        rw [hn] at hhe
        exact hhe rfl
      rcases hbad with hb | hb | hb | hb
      · exact absurd hb hbt
      · exact absurd hb hne
      · obtain ⟨e, he⟩ := extractHoldings_error_of_bad pf.holdings [] Dict.empty hb
        rw [he]
        rcases extractHoldings_error_msgs pf.holdings [] Dict.empty e he with rfl | rfl
        · exact ⟨_, rfl, by simp, rfl⟩
        · exact ⟨_, rfl, by simp, rfl⟩
      · cases hext : extractHoldings pf.holdings [] Dict.empty with
        | error e =>
            rcases extractHoldings_error_msgs pf.holdings [] Dict.empty e hext with rfl | rfl
            · exact ⟨_, rfl, by simp, rfl⟩
            · exact ⟨_, rfl, by simp, rfl⟩
        | ok tw =>
            obtain ⟨ts, w0⟩ := tw
            simp only []
            by_cases hts : ts.isEmpty
            · rw [if_pos hts]
              exact ⟨_, rfl, by simp, rfl⟩
            · rw [if_neg hts]
              have hzero : ∀ x ∈ (pf.holdings.map (fun h => h.weight.getD 0)), x = 0 := by
                apply all_zero_of_nonneg_sum_nonpos
                · intro x hx
                  obtain ⟨h, hm, rfl⟩ := List.mem_map.mp hx
                  obtain ⟨wv, hw, hwn⟩ := hb.1 h hm
                  rw [hw]
                  exact hwn
                · exact hb.2
              have hv0 : ∀ v ∈ w0.values, v = 0 := by
                intro v hv
                rcases extractHoldings_values pf.holdings [] Dict.empty ts w0 hext
                    v hv with h' | ⟨h, hm, hw⟩
                · simp [Dict.empty, Dict.values] at h'
                · have := hzero (h.weight.getD 0) (List.mem_map_of_mem _ hm)
                  rw [hw] at this
                  simpa using this
              have hsum0 : w0.sumValues = 0 := List.sum_eq_zero hv0
              rw [if_pos (by rw [hsum0])]
              exact ⟨_, rfl, by simp, rfl⟩

/-! ## Assembler lemmas: selection, scaling and stage behaviour -/

theorem ne_nil_not_isEmpty {γ : Type} (l : List γ) (h : l ≠ []) :
    ¬(l.isEmpty = true) := by
  cases l with
  | nil => exact absurd rfl h
  | cons a t => simp

theorem eq_nil_of_isEmpty {γ : Type} (l : List γ) (h : l.isEmpty = true) :
    l = [] := by
  cases l with
  | nil => rfl
  | cons a t => simp at h

theorem sum_pos_of_mem (l : List ℚ) (hp : ∀ x ∈ l, 0 < x) (hne : l ≠ []) :
    0 < l.sum := by
  induction l with
  | nil => exact absurd rfl hne
  | cons y rest ih =>
      rw [List.sum_cons]
      have hy := hp y (List.mem_cons_self _ _)
      have hr : 0 ≤ rest.sum :=
        List.sum_nonneg (fun x hx => le_of_lt (hp x (List.mem_cons_of_mem _ hx)))
      linarith

theorem sum_map_smul (l : List ℚ) (f : ℚ → ℚ) (c : ℚ) (hf : ∀ x, f x = x * c) :
    (l.map f).sum = l.sum * c := by
  induction l with
  | nil => simp
  | cons y rest ih => simp [hf, ih, add_mul]

theorem sumValues_mapValues_smul (d : Dict ℚ) (f : ℚ → ℚ) (c : ℚ)
    (hf : ∀ x, f x = x * c) : (d.mapValues f).sumValues = d.sumValues * c := by
  simp [Dict.sumValues, Dict.values_mapValues, sum_map_smul _ f c hf]

namespace Dict

variable {α β : Type}

theorem get?_selectKeys_aux (d : Dict α) :
    ∀ (ks : List String) (acc : Dict α) (t : String),
      (ks.foldl (fun acc k => match d.get? k with
        | some v => acc.insert k v
        | none => acc) acc).get? t =
      if t ∈ ks ∧ (d.get? t).isSome then d.get? t else acc.get? t
  | [], acc, t => by simp
  | k :: rest, acc, t => by
      rw [List.foldl_cons, get?_selectKeys_aux d rest _ t]
      by_cases hmem : t ∈ rest ∧ (d.get? t).isSome = true
      · rw [if_pos hmem, if_pos ⟨List.mem_cons_of_mem _ hmem.1, hmem.2⟩]
      · rw [if_neg hmem]
        by_cases htk : t = k
        · subst htk
          cases hdk : d.get? t with
          | none =>
              rw [if_neg (fun hc => absurd hc.2 (by simp))]
          | some v =>
              rw [if_pos ⟨List.mem_cons_self t rest, rfl⟩]
              simp [get?_insert]
        · have hstep : (match d.get? k with
              | some v => acc.insert k v
              | none => acc).get? t = acc.get? t := by
            cases d.get? k with
            | none => rfl
            | some v => simp [get?_insert, htk]
          rw [hstep,
            if_neg (fun hc => hmem ⟨(List.mem_cons.mp hc.1).resolve_left htk, hc.2⟩)]

theorem get?_selectKeys (d : Dict α) (ks : List String) (t : String) :
    (d.selectKeys ks).get? t =
      if t ∈ ks ∧ (d.get? t).isSome then d.get? t else none := by
  unfold selectKeys
  rw [get?_selectKeys_aux]
  split <;> rfl

theorem get?_eq_some_mem_values (d : Dict α) (t : String) (v : α)
    (h : d.get? t = some v) : v ∈ d.values := by
  rcases d with ⟨l⟩
  simp only [get?] at h
  cases hf : l.find? (fun p => p.1 == t) with
  | none => rw [hf] at h; cases h
  | some p =>
      rw [hf] at h
      have h2 : some p.2 = some v := h
      injection h2 with h2
      rw [← h2]
      exact List.mem_map_of_mem Prod.snd (List.mem_of_find?_eq_some hf)

theorem mem_values_selectKeys_aux (d : Dict α) :
    ∀ (ks : List String) (acc : Dict α) (v : α),
      v ∈ ((ks.foldl (fun acc k => match d.get? k with
        | some v => acc.insert k v
        | none => acc) acc)).values →
      v ∈ acc.values ∨ ∃ t, d.get? t = some v
  | [], acc, v, hv => Or.inl hv
  | k :: rest, acc, v, hv => by
      rw [List.foldl_cons] at hv
      rcases mem_values_selectKeys_aux d rest _ v hv with h | h
      · cases hdk : d.get? k with
        | none => rw [hdk] at h; exact Or.inl h
        | some w =>
            rw [hdk] at h
            rcases mem_values_insert acc k w v h with rfl | h2
            · exact Or.inr ⟨k, hdk⟩
            · exact Or.inl h2
      · exact Or.inr h

theorem mem_values_selectKeys (d : Dict α) (ks : List String) (v : α)
    (hv : v ∈ (d.selectKeys ks).values) : ∃ t, d.get? t = some v := by
  rcases mem_values_selectKeys_aux d ks empty v hv with h | h
  · simp [empty, values] at h
  · exact h

theorem values_ne_nil_of_get? (d : Dict α) (t : String) (v : α)
    (h : d.get? t = some v) : d.values ≠ [] := by
  intro h0
  have hne := entries_ne_nil_of_get? d t v h
  rcases d with ⟨l⟩
  simp only [values, List.map_eq_nil_iff] at h0
  exact hne h0

theorem mem_entries_erase (d : Dict α) (k : String) (p : String × α)
    (hp : p ∈ (d.erase k).entries) : p ∈ d.entries ∧ p.1 ≠ k := by
  rcases d with ⟨l⟩
  have h2 := List.mem_filter.mp hp
  exact ⟨h2.1, by simpa using h2.2⟩

theorem contains_erase_self (d : Dict α) (k : String) :
    (d.erase k).contains k = false := by
  rw [contains_eq_isSome_get?, get?_erase, if_pos rfl]
  rfl

theorem contains_erase_other (d : Dict α) (k t : String) (h : t ≠ k) :
    (d.erase k).contains t = d.contains t := by
  rw [contains_eq_isSome_get?, get?_erase, if_neg h, contains_eq_isSome_get?]

end Dict

theorem extractHoldings_isSome_mono :
    ∀ (hs : List Holding) (acc : List String) (w : Dict ℚ) (ts : List String)
      (w0 : Dict ℚ), extractHoldings hs acc w = .ok (ts, w0) →
      ∀ t, (w.get? t).isSome = true → (w0.get? t).isSome = true
  | [], acc, w, ts, w0, h, t, hw => by
      rw [extractHoldings] at h
      injection h with h1
      injection h1 with h1 h2
      rw [← h2]
      exact hw
  | h0 :: rest, acc, w, ts, w0, h, t, hw => by
      rw [extractHoldings] at h
      rcases hs0 : h0.symbol with - | s
      · simp only [hs0] at h; cases h
      · rcases hw0 : h0.weight with - | wv
        · simp only [hs0, hw0] at h; cases h
        · simp only [hs0, hw0] at h
          by_cases hse : s = ""
          · rw [if_pos hse] at h; cases h
          · rw [if_neg hse] at h
            refine extractHoldings_isSome_mono rest _ _ ts w0 h t ?_
            rw [Dict.get?_insert]
            by_cases hts : t = s
            · simp [hts]
            · rw [if_neg hts]; exact hw

theorem extractHoldings_dom :
    ∀ (hs : List Holding) (acc : List String) (w : Dict ℚ) (ts : List String)
      (w0 : Dict ℚ), extractHoldings hs acc w = .ok (ts, w0) →
      ∀ t ∈ ts, t ∈ acc ∨ (w0.get? t).isSome = true
  | [], acc, w, ts, w0, h, t, ht => by
      rw [extractHoldings] at h
      injection h with h1
      injection h1 with h1 h2
      rw [← h1] at ht
      exact Or.inl ht
  | h0 :: rest, acc, w, ts, w0, h, t, ht => by
      rw [extractHoldings] at h
      rcases hs0 : h0.symbol with - | s
      · simp only [hs0] at h; cases h
      · rcases hw0 : h0.weight with - | wv
        · simp only [hs0, hw0] at h; cases h
        · simp only [hs0, hw0] at h
          by_cases hse : s = ""
          · rw [if_pos hse] at h; cases h
          · rw [if_neg hse] at h
            rcases extractHoldings_dom rest _ _ ts w0 h t ht with hacc | hsm
            · rcases List.mem_append.mp hacc with hin | hin
              · exact Or.inl hin
              · have hts : t = s := by simpa using hin
                subst hts
                refine Or.inr (extractHoldings_isSome_mono rest _ _ ts w0 h t ?_)
                rw [Dict.get?_insert, if_pos rfl]
                rfl
            · exact Or.inr hsm

theorem extractHoldings_isSome_of_mem (hs : List Holding) (ts : List String)
    (w0 : Dict ℚ) (hx : extractHoldings hs [] Dict.empty = .ok (ts, w0))
    (t : String) (ht : t ∈ ts) : (w0.get? t).isSome = true := by
  rcases extractHoldings_dom hs [] Dict.empty ts w0 hx t ht with h | h
  · simp at h
  · exact h

theorem fhc_mem_entries_aux (fetch : String → FetchResult) :
    ∀ (l : List String) (acc : Dict (List Bar)) (p : String × List Bar),
      p ∈ (List.foldl (fun acc t =>
        match fetch t with
        | .ok bars => if bars.isEmpty then acc else acc.insert t bars
        | .raised _ => acc) acc l).entries →
      p ∈ acc.entries
        ∨ (p.1 ∈ l ∧ goodFetch fetch p.1 = true ∧ p.2 = fetchBars fetch p.1)
  | [], acc, p, hp => Or.inl hp
  | k :: rest, acc, p, hp => by
      rw [List.foldl_cons] at hp
      rcases fhc_mem_entries_aux fetch rest _ p hp with h | h
      · cases hfk : fetch k with
        | ok bars =>
            rw [hfk] at h
            have h2 : p ∈ (if bars.isEmpty then acc else acc.insert k bars).entries := h
            by_cases hbe : bars.isEmpty
            · rw [if_pos hbe] at h2
              exact Or.inl h2
            · rw [if_neg hbe] at h2
              rcases Dict.mem_insertEntries k bars acc.entries p h2 with rfl | h3
              · have hbe2 : bars.isEmpty = false := by
                  cases hb2 : bars.isEmpty with
                  | false => rfl
                  | true => exact absurd hb2 hbe
                refine Or.inr ⟨List.mem_cons_self _ _, ?_, ?_⟩
                · simp [goodFetch, hfk, hbe2]
                · simp [fetchBars, hfk]
              · exact Or.inl h3
        | raised m =>
            rw [hfk] at h
            exact Or.inl h
      · exact Or.inr ⟨List.mem_cons_of_mem _ h.1, h.2.1, h.2.2⟩

/-- Every entry of the orchestrator's map belongs to the submitted ticker
list, had a good (non-empty, non-raising) fetch, and carries its bars. -/
theorem fhc_mem_entries (fetch : String → FetchResult) (tickers : List String)
    (p : String × List Bar)
    (hp : p ∈ (fetch_histories_concurrently fetch tickers).entries) :
    p.1 ∈ tickers ∧ goodFetch fetch p.1 = true ∧ p.2 = fetchBars fetch p.1 := by
  rcases fhc_mem_entries_aux fetch tickers Dict.empty p hp with h | h
  · simp [Dict.empty] at h
  · exact h

theorem resolveBenchmark_present (ah : Dict (List Bar)) (bt : String)
    (h : ah.contains bt = true) :
    resolveBenchmark ah bt =
      .ok (ah.erase bt, (ah.get? bt).getD [], none) := by
  simp only [resolveBenchmark]
  rw [if_pos h]

theorem resolveBenchmark_fallback (ah : Dict (List Bar)) (bt : String)
    (fb : String) (hb : ah.contains bt = false)
    (hfind : ((benchmark_alternatives.get? bt).getD []).find?
        (fun a => ah.contains a) = some fb) :
    resolveBenchmark ah bt =
      .ok (ah.erase fb, (ah.get? fb).getD [], some (fallbackMessage fb bt)) := by
  simp only [resolveBenchmark]
  rw [if_neg (by simp [hb]), hfind]

theorem resolveBenchmark_absent_none (ah : Dict (List Bar)) (bt : String)
    (hb : ah.contains bt = false)
    (hfind : ((benchmark_alternatives.get? bt).getD []).find?
        (fun a => ah.contains a) = none) :
    resolveBenchmark ah bt = .error (benchmarkUnavailableMessage bt) := by
  simp only [resolveBenchmark]
  rw [if_neg (by simp [hb]), hfind]

theorem stageMissing_none (histories : Dict (List Bar)) (pt : List String)
    (w0 : Dict ℚ) (total : ℚ) (ap : Bool) (wmsg : Option String)
    (hmiss : pt.filter (fun t => !(histories.contains t)) = []) :
    stageMissing histories pt w0 total ap wmsg = .ok (w0, wmsg, []) := by
  simp only [stageMissing]
  rw [if_pos (by rw [hmiss]; rfl)]

theorem stageMissing_partial (histories : Dict (List Bar)) (pt : List String)
    (w0 : Dict ℚ) (total : ℚ) (wmsg : Option String)
    (hmiss : pt.filter (fun t => !(histories.contains t)) ≠ [])
    (havail : pt.filter (fun t => histories.contains t) ≠ [])
    (hsum : 0 < (w0.selectKeys
        (pt.filter (fun t => histories.contains t))).sumValues) :
    stageMissing histories pt w0 total true wmsg =
      .ok ((w0.selectKeys (pt.filter (fun t => histories.contains t))).mapValues
            (· * (total / (w0.selectKeys
              (pt.filter (fun t => histories.contains t))).sumValues)),
          some (partialDataMessage
            (pt.filter (fun t => !(histories.contains t))) pt.length),
          pt.filter (fun t => !(histories.contains t))) := by
  simp only [stageMissing]
  rw [if_neg (ne_nil_not_isEmpty _ hmiss),
    if_neg (by
      intro hc
      rcases hc with hc | hc
      · simp at hc
      · exact ne_nil_not_isEmpty _ havail hc),
    if_neg (not_le.mpr hsum)]

theorem stageInsufficient_none (histories : Dict (List Bar)) (w1 : Dict ℚ)
    (total : ℚ) (ap : Bool) (wmsg : Option String)
    (hfil : histories.entries.filter (fun p => p.2.length < 2) = []) :
    stageInsufficient histories w1 total ap wmsg =
      .ok (histories, w1, wmsg, []) := by
  simp only [stageInsufficient]
  rw [if_pos (by rw [hfil]; rfl)]

theorem stageMissing_ok (histories : Dict (List Bar)) (pt : List String)
    (w0 : Dict ℚ) (total : ℚ) (ap : Bool) (wmsg : Option String)
    (w1 : Dict ℚ) (wm : Option String) (miss : List String)
    (htotal : 0 < total)
    (h : stageMissing histories pt w0 total ap wmsg = .ok (w1, wm, miss)) :
    miss = pt.filter (fun t => !(histories.contains t))
    ∧ (∃ c : ℚ, 0 < c ∧ ∀ t v, w1.get? t = some v →
        ∃ u, w0.get? t = some u ∧ v = u * c)
    ∧ (miss = [] → w1 = w0 ∧ wm = wmsg)
    ∧ (miss ≠ [] → w1.sumValues = total
        ∧ wm = some (partialDataMessage miss pt.length)) := by
  simp only [stageMissing] at h
  split at h
  · rename_i hmiss
    injection h with h1
    injection h1 with ha h1
    injection h1 with hb hc
    subst ha; subst hb; subst hc
    exact ⟨(eq_nil_of_isEmpty _ hmiss).symm,
      ⟨1, one_pos, fun t v hv => ⟨v, hv, (mul_one v).symm⟩⟩,
      fun _ => ⟨rfl, rfl⟩,
      fun hm => absurd rfl hm⟩
  · split at h
    · exact Except.noConfusion h
    · split at h
      · exact Except.noConfusion h
      · rename_i hmiss hgate hsum
        injection h with h1
        injection h1 with ha h1
        injection h1 with hb hc
        subst ha; subst hb; subst hc
        have hpos : 0 < (w0.selectKeys
            (pt.filter (fun t => histories.contains t))).sumValues := not_le.mp hsum
        refine ⟨rfl,
          ⟨total / (w0.selectKeys
              (pt.filter (fun t => histories.contains t))).sumValues,
            div_pos htotal hpos, ?_⟩,
          fun hm => absurd (by rw [hm]; rfl) hmiss,
          fun _ => ⟨?_, rfl⟩⟩
        · intro t v hv
          rw [Dict.get?_mapValues] at hv
          cases hsel : (w0.selectKeys
              (pt.filter (fun t => histories.contains t))).get? t with
          | none => rw [hsel] at hv; simp at hv
          | some u =>
              rw [hsel] at hv
              have hv2 : some (u * (total / (w0.selectKeys
                  (pt.filter (fun t => histories.contains t))).sumValues))
                  = some v := hv
              injection hv2 with hv2
              rw [Dict.get?_selectKeys] at hsel
              split at hsel
              · exact ⟨u, hsel, hv2.symm⟩
              · exact Option.noConfusion hsel
        · rw [Dict.sumValues_mapValues_mul, mul_comm]
          exact div_mul_cancel₀ total (ne_of_gt hpos)

theorem stageInsufficient_ok (histories : Dict (List Bar)) (w1 : Dict ℚ)
    (total : ℚ) (ap : Bool) (wmsg : Option String)
    (hist2 : Dict (List Bar)) (w2 : Dict ℚ) (wm2 : Option String)
    (bad : List String) (htotal : 0 < total)
    (h : stageInsufficient histories w1 total ap wmsg
        = .ok (hist2, w2, wm2, bad)) :
    bad = (histories.entries.filter (fun p => p.2.length < 2)).map Prod.fst
    ∧ (∃ c : ℚ, 0 < c ∧ ∀ t v, w2.get? t = some v →
        ∃ u, w1.get? t = some u ∧ v = u * c)
    ∧ (bad = [] → hist2 = histories ∧ w2 = w1 ∧ wm2 = wmsg)
    ∧ (0 < w2.sumValues → w2.sumValues = total ∨ w2 = w1) := by
  rcases wmsg with - | m <;>
  · simp only [stageInsufficient] at h
    split at h
    · rename_i hfil
      injection h with h1
      injection h1 with ha h1
      injection h1 with hb h1
      injection h1 with hc hd
      subst ha; subst hb; subst hc; subst hd
      exact ⟨(eq_nil_of_isEmpty _ hfil).symm,
        ⟨1, one_pos, fun t v hv => ⟨v, hv, (mul_one v).symm⟩⟩,
        fun _ => ⟨rfl, rfl, rfl⟩,
        fun _ => Or.inr rfl⟩
    · split at h
      · exact Except.noConfusion h
      · split at h
        · exact Except.noConfusion h
        · split at h
          · rename_i hfil hap hne hrem
            injection h with h1
            injection h1 with ha h1
            injection h1 with hb h1
            injection h1 with hc hd
            subst ha; subst hb; subst hc; subst hd
            have hrem2 : 0 < (w1.eraseKeys ((histories.entries.filter
                (fun p => p.2.length < 2)).map Prod.fst)).sumValues := hrem
            refine ⟨rfl,
              ⟨total / (w1.eraseKeys ((histories.entries.filter
                  (fun p => p.2.length < 2)).map Prod.fst)).sumValues,
                div_pos htotal hrem2, ?_⟩,
              fun hb0 => absurd (by rw [hb0]; rfl) hfil,
              fun _ => Or.inl ?_⟩
            · intro t v hv
              rw [Dict.get?_mapValues] at hv
              cases hsel : (w1.eraseKeys ((histories.entries.filter
                  (fun p => p.2.length < 2)).map Prod.fst)).get? t with
              | none => rw [hsel] at hv; simp at hv
              | some u =>
                  rw [hsel] at hv
                  have hv2 : some (u / (w1.eraseKeys ((histories.entries.filter
                      (fun p => p.2.length < 2)).map Prod.fst)).sumValues * total)
                      = some v := hv
                  injection hv2 with hv2
                  rw [Dict.get?_eraseKeys] at hsel
                  split at hsel
                  · exact Option.noConfusion hsel
                  · exact ⟨u, hsel, by rw [← hv2]; ring⟩
            · rw [sumValues_mapValues_smul _ _
                  (total / (w1.eraseKeys ((histories.entries.filter
                    (fun p => p.2.length < 2)).map Prod.fst)).sumValues)
                  (fun x => by ring), mul_comm]
              exact div_mul_cancel₀ total (ne_of_gt hrem2)
          · rename_i hfil hap hne hrem
            injection h with h1
            injection h1 with ha h1
            injection h1 with hb h1
            injection h1 with hc hd
            subst ha; subst hb; subst hc; subst hd
            refine ⟨rfl,
              ⟨1, one_pos, fun t v hv => ?_⟩,
              fun hb0 => absurd (by rw [hb0]; rfl) hfil,
              fun hpos => absurd hpos hrem⟩
            rw [Dict.get?_eraseKeys] at hv
            split at hv
            · exact Option.noConfusion hv
            · exact ⟨v, hv, (mul_one v).symm⟩

/-! ## The `all_data` spine: inversion and forward evaluation -/

/-- Inversion of a successful `all_data` run into its stages. -/
theorem all_data_ok_inv (fetch : String → FetchResult) (pf : Portfolio)
    (bt : String) (ap : Bool) (res : AllDataResult) (tr : List String)
    (h : all_data fetch pf bt ap = ⟨.ok res, tr⟩) :
    ∃ ts w0 hist1 bd warn0 w1 wm1 miss hist2 w2 wm2 bad,
      extractHoldings pf.holdings [] Dict.empty = .ok (ts, w0)
      ∧ 0 < w0.sumValues
      ∧ resolveBenchmark (fetch_histories_concurrently fetch (ts ++ [bt])) bt
          = .ok (hist1, bd, warn0)
      ∧ stageMissing hist1 ts w0 w0.sumValues ap warn0 = .ok (w1, wm1, miss)
      ∧ stageInsufficient hist1 w1 w0.sumValues ap wm1
          = .ok (hist2, w2, wm2, bad)
      ∧ ¬(bd.length < 2)
      ∧ res = ⟨hist2, bd, w2, wm2.map (fun m => ⟨m, miss ++ bad⟩)⟩
      ∧ tr = ts ++ [bt] := by
  simp only [all_data] at h
  split at h
  · injection h with h1 h2
    exact Except.noConfusion h1
  · split at h
    · injection h with h1 h2
      exact Except.noConfusion h1
    · split at h
      · injection h with h1 h2
        exact Except.noConfusion h1
      · rename_i ts w0 hx
        split at h
        · injection h with h1 h2
          exact Except.noConfusion h1
        · split at h
          · injection h with h1 h2
            exact Except.noConfusion h1
          · rename_i htot
            split at h
            · injection h with h1 h2
              exact Except.noConfusion h1
            · split at h
              · injection h with h1 h2
                exact Except.noConfusion h1
              · rename_i hist1 bd warn0 hrb
                split at h
                · injection h with h1 h2
                  exact Except.noConfusion h1
                · rename_i w1 wm1 miss hsm
                  split at h
                  · injection h with h1 h2
                    exact Except.noConfusion h1
                  · rename_i hist2 w2 wm2 bad hsi
                    split at h
                    · injection h with h1 h2
                      exact Except.noConfusion h1
                    · rename_i hbd
                      injection h with h1 h2
                      injection h1 with h1
                      exact ⟨ts, w0, hist1, bd, warn0, w1, wm1, miss, hist2,
                        w2, wm2, bad, hx, not_le.mp htot, hrb, hsm, hsi, hbd,
                        h1.symm, h2.symm⟩

/-- Forward evaluation of `all_data` through given stage outcomes. -/
theorem all_data_forward (fetch : String → FetchResult) (pf : Portfolio)
    (bt : String) (ap : Bool) (ts : List String) (w0 : Dict ℚ)
    (hist1 : Dict (List Bar)) (bd : List Bar) (warn0 : Option String)
    (w1 : Dict ℚ) (wm1 : Option String) (miss : List String)
    (hist2 : Dict (List Bar)) (w2 : Dict ℚ) (wm2 : Option String)
    (bad : List String)
    (hx : extractHoldings pf.holdings [] Dict.empty = .ok (ts, w0))
    (hbt : ¬(bt = ""))
    (hts : ts ≠ [])
    (htot : 0 < w0.sumValues)
    (hAHne : (fetch_histories_concurrently fetch (ts ++ [bt])).isEmpty = false)
    (hrb : resolveBenchmark (fetch_histories_concurrently fetch (ts ++ [bt])) bt
        = .ok (hist1, bd, warn0))
    (hsm : stageMissing hist1 ts w0 w0.sumValues ap warn0 = .ok (w1, wm1, miss))
    (hsi : stageInsufficient hist1 w1 w0.sumValues ap wm1
        = .ok (hist2, w2, wm2, bad))
    (hbd : ¬(bd.length < 2)) :
    all_data fetch pf bt ap =
      ⟨.ok ⟨hist2, bd, w2, wm2.map (fun m => ⟨m, miss ++ bad⟩)⟩,
       ts ++ [bt]⟩ := by
  have hholds : pf.holdings ≠ [] := by
    intro h0
    rw [h0, extractHoldings] at hx
    injection hx with h1
    injection h1 with h1 h2
    exact hts h1.symm
  simp only [all_data]
  rw [if_neg hbt, if_neg (ne_nil_not_isEmpty _ hholds), hx]
  simp only []
  rw [if_neg (ne_nil_not_isEmpty _ hts), if_neg (not_le.mpr htot),
    if_neg (by rw [hAHne]; simp), hrb]
  simp only []
  rw [hsm]
  simp only []
  rw [hsi]
  simp only []
  rw [if_neg hbd]

/-- Forward evaluation of `all_data` into the benchmark-unavailable error. -/
theorem all_data_rb_error (fetch : String → FetchResult) (pf : Portfolio)
    (bt : String) (ap : Bool) (ts : List String) (w0 : Dict ℚ) (e : String)
    (hx : extractHoldings pf.holdings [] Dict.empty = .ok (ts, w0))
    (hbt : ¬(bt = ""))
    (hts : ts ≠ [])
    (htot : 0 < w0.sumValues)
    (hAHne : (fetch_histories_concurrently fetch (ts ++ [bt])).isEmpty = false)
    (hrb : resolveBenchmark (fetch_histories_concurrently fetch (ts ++ [bt])) bt
        = .error e) :
    all_data fetch pf bt ap = ⟨.error e, ts ++ [bt]⟩ := by
  have hholds : pf.holdings ≠ [] := by
    intro h0
    rw [h0, extractHoldings] at hx
    injection hx with h1
    injection h1 with h1 h2
    exact hts h1.symm
  simp only [all_data]
  rw [if_neg hbt, if_neg (ne_nil_not_isEmpty _ hholds), hx]
  simp only []
  rw [if_neg (ne_nil_not_isEmpty _ hts), if_neg (not_le.mpr htot),
    if_neg (by rw [hAHne]; simp), hrb]

/-- The orchestrator is invoked at most once, on the extracted tickers plus
the benchmark. -/
theorem all_data_fetched_cases (fetch : String → FetchResult) (pf : Portfolio)
    (bt : String) (ap : Bool) (ts : List String) (w0 : Dict ℚ)
    (hx : extractHoldings pf.holdings [] Dict.empty = .ok (ts, w0)) :
    (all_data fetch pf bt ap).fetched = []
    ∨ (all_data fetch pf bt ap).fetched = ts ++ [bt] := by
  simp only [all_data]
  rw [hx]
  simp only []
  split
  · exact Or.inl rfl
  · split
    · exact Or.inl rfl
    · split
      · exact Or.inl rfl
      · split
        · exact Or.inl rfl
        · split
          · exact Or.inr rfl
          · split
            · exact Or.inr rfl
            · split
              · exact Or.inr rfl
              · split
                · exact Or.inr rfl
                · split
                  · exact Or.inr rfl
                  · exact Or.inr rfl

/-! ## C1: weight conservation in the assembler -/

/-- C1 counterexample: portfolio `[AAA weight 0, BBB weight 100]`, benchmark
SPY; BBB has only one bar and is dropped at the insufficient-data stage. The
surviving ticker set `{AAA}` is a non-empty strict subset, the original total
weight is 100, yet the returned weight sum is 0: the renormalization is
skipped because the survivors' weight sum is not positive, violating the
1e-6 conservation claim. -/
theorem weight_conservation_cex :
    (all_data fetchC1 pfC1 "SPY" true).result =
      .ok ⟨⟨[("AAA", [mkBar 0 1, mkBar 1 1])]⟩, [mkBar 0 1, mkBar 1 1],
           ⟨[("AAA", 0)]⟩,
           some ⟨"Removed 1 ticker(s) with insufficient data.", ["BBB"]⟩⟩
    ∧ (Dict.mk [("AAA", (0 : ℚ))]).sumValues = 0
    ∧ (Dict.mk [("AAA", (0 : ℚ)), ("BBB", 100)]).sumValues = 100
    ∧ ¬((100 : ℚ) - (Dict.mk [("AAA", (0 : ℚ))]).sumValues ≤ 1 / 1000000) :=
  ⟨by decide, by decide, by decide, by decide⟩

set_option maxHeartbeats 1000000 in
/-- C1 (amended): whenever `all_data` succeeds, any two surviving weights
stand in the same ratio as their input weights (each stage rescales all
survivors by one positive factor), and if the surviving weight sum is
positive it equals the original total weight exactly (not merely within
1e-6). When every surviving weight is 0 the renormalization is skipped and
the sum is not preserved. -/
theorem weight_conservation_amended (fetch : String → FetchResult)
    (pf : Portfolio) (bt : String) (ap : Bool) (ts : List String)
    (w0 : Dict ℚ) (res : AllDataResult) (tr : List String)
    (hx : extractHoldings pf.holdings [] Dict.empty = .ok (ts, w0))
    (h : all_data fetch pf bt ap = ⟨.ok res, tr⟩) :
    (∀ t1 t2 v1 v2 u1 u2,
        res.weights.get? t1 = some v1 → res.weights.get? t2 = some v2 →
        w0.get? t1 = some u1 → w0.get? t2 = some u2 →
        v1 * u2 = v2 * u1)
    ∧ (0 < res.weights.sumValues → res.weights.sumValues = w0.sumValues) := by
  obtain ⟨ts2, w02, hist1, bd, warn0, w1, wm1, miss, hist2, w2, wm2, bad,
    hx2, htot, hrb, hsm, hsi, hbd, hres, htr⟩ :=
    all_data_ok_inv fetch pf bt ap res tr h
  rw [hx] at hx2
  injection hx2 with hx2
  injection hx2 with hts2 hw02
  subst hts2
  subst hw02
  obtain ⟨-, ⟨c1, hc1, hp1⟩, hm2, hm3⟩ :=
    stageMissing_ok hist1 ts w0 w0.sumValues ap warn0 w1 wm1 miss htot hsm
  obtain ⟨-, ⟨c2, hc2, hp2⟩, -, hi3⟩ :=
    stageInsufficient_ok hist1 w1 w0.sumValues ap wm1 hist2 w2 wm2 bad
      htot hsi
  subst hres
  constructor
  · intro t1 t2 v1 v2 u1 u2 hv1 hv2 hu1 hu2
    have hv1b : w2.get? t1 = some v1 := hv1
    have hv2b : w2.get? t2 = some v2 := hv2
    obtain ⟨a1, ha1, hva1⟩ := hp2 t1 v1 hv1b
    obtain ⟨b1, hb1, hab1⟩ := hp1 t1 a1 ha1
    obtain ⟨a2, ha2, hva2⟩ := hp2 t2 v2 hv2b
    obtain ⟨b2, hb2, hab2⟩ := hp1 t2 a2 ha2
    rw [hu1] at hb1
    injection hb1 with hb1
    rw [hu2] at hb2
    injection hb2 with hb2
    subst hva1
    subst hva2
    subst hab1
    subst hab2
    rw [← hb1, ← hb2]
    ring
  · intro hpos
    have hpos2 : 0 < w2.sumValues := hpos
    show w2.sumValues = w0.sumValues
    rcases hi3 hpos2 with he | he
    · exact he
    · by_cases hm : miss = []
      · rw [he, (hm2 hm).1]
      · rw [he]
        exact (hm3 hm).1

/-- Witness for C1 (amended): with all data healthy the weights survive
unchanged, and the (positive) surviving sum equals the input total. -/
theorem weight_conservation_amended_witness :
    resAB60.weights.sumValues
      = (Dict.mk [("AAA", (60 : ℚ)), ("BBB", 40)]).sumValues :=
  (weight_conservation_amended fetchTwoBars pfAB60 "SPY" true ["AAA", "BBB"]
    ⟨[("AAA", 60), ("BBB", 40)]⟩ resAB60 (["AAA", "BBB"] ++ ["SPY"])
    (by decide) (by decide)).2 (by decide)

/-! ## C10: benchmark/holding collision -/

set_option maxHeartbeats 1000000 in
/-- C10: when a holding's symbol equals the benchmark ticker and its fetch
returns at least two bars (at least one other holding having good data, all
extracted weights positive, every good holding with at least two bars, and
allow_partial on), `all_data` hands that history to `benchmark_data`, pops
the ticker from the portfolio map, treats it as a missing portfolio ticker -
it disappears from the weights dict whose sum is nevertheless preserved
(the weight is redistributed over the others) - and names it in the
data-quality warning. -/
theorem benchmark_collision (fetch : String → FetchResult) (pf : Portfolio)
    (bt : String) (ts : List String) (w0 : Dict ℚ)
    (hx : extractHoldings pf.holdings [] Dict.empty = .ok (ts, w0))
    (hbt : bt ≠ "")
    (hmem : bt ∈ ts)
    (hgood : goodFetch fetch bt = true)
    (hbt2 : 2 ≤ (fetchBars fetch bt).length)
    (hother : ∃ t0, t0 ∈ ts ∧ t0 ≠ bt ∧ goodFetch fetch t0 = true)
    (hpos : ∀ v ∈ w0.values, 0 < v)
    (hlen : ∀ t ∈ ts, goodFetch fetch t = true →
        2 ≤ (fetchBars fetch t).length) :
    ∃ res, all_data fetch pf bt true = ⟨.ok res, ts ++ [bt]⟩
      ∧ res.benchmark_data = fetchBars fetch bt
      ∧ res.portfolio_data.contains bt = false
      ∧ res.weights.contains bt = false
      ∧ res.weights.sumValues = w0.sumValues
      ∧ ∃ w, res.warning = some w ∧ bt ∈ w.missing_tickers := by
  obtain ⟨t0, ht0, ht0ne, ht0good⟩ := hother
  have hts : ts ≠ [] := List.ne_nil_of_mem hmem
  have hbtSome : (w0.get? bt).isSome = true :=
    extractHoldings_isSome_of_mem pf.holdings ts w0 hx bt hmem
  obtain ⟨vbt, hvbt⟩ := Option.isSome_iff_exists.mp hbtSome
  have htot : 0 < w0.sumValues :=
    sum_pos_of_mem w0.values
      (fun v hv => hpos v hv) (Dict.values_ne_nil_of_get? w0 bt vbt hvbt)
  have hAHbt : (fetch_histories_concurrently fetch (ts ++ [bt])).get? bt
      = some (fetchBars fetch bt) := by
    rw [fhc_get?, if_pos ⟨List.mem_append_right ts (by simp), hgood⟩]
  have hAHne : (fetch_histories_concurrently fetch (ts ++ [bt])).isEmpty
      = false :=
    Dict.isEmpty_false_of_get? _ bt _ hAHbt
  have hAHcont : (fetch_histories_concurrently fetch (ts ++ [bt])).contains bt
      = true := by
    rw [Dict.contains_eq_isSome_get?, hAHbt]
    rfl
  have hrb := resolveBenchmark_present
    (fetch_histories_concurrently fetch (ts ++ [bt])) bt hAHcont
  have hbt1 : ((fetch_histories_concurrently fetch
      (ts ++ [bt])).erase bt).contains bt = false :=
    Dict.contains_erase_self _ bt
  have hmiss_mem : bt ∈ ts.filter (fun t =>
      !(((fetch_histories_concurrently fetch (ts ++ [bt])).erase
        bt).contains t)) := by
    apply List.mem_filter.mpr
    exact ⟨hmem, by rw [hbt1]; rfl⟩
  have ht0cont : ((fetch_histories_concurrently fetch
      (ts ++ [bt])).erase bt).contains t0 = true := by
    rw [Dict.contains_erase_other _ bt t0 ht0ne]
    exact (fhc_contains fetch (ts ++ [bt]) t0).mpr
      ⟨List.mem_append_left _ ht0, ht0good⟩
  have havail_mem : t0 ∈ ts.filter (fun t =>
      ((fetch_histories_concurrently fetch (ts ++ [bt])).erase
        bt).contains t) :=
    List.mem_filter.mpr ⟨ht0, ht0cont⟩
  have ht0Some : (w0.get? t0).isSome = true :=
    extractHoldings_isSome_of_mem pf.holdings ts w0 hx t0 ht0
  obtain ⟨v0, hv0⟩ := Option.isSome_iff_exists.mp ht0Some
  have hselt0 : (w0.selectKeys (ts.filter (fun t =>
      ((fetch_histories_concurrently fetch (ts ++ [bt])).erase
        bt).contains t))).get? t0 = some v0 := by
    rw [Dict.get?_selectKeys, if_pos ⟨havail_mem, by rw [hv0]; rfl⟩, hv0]
  have hselpos : 0 < (w0.selectKeys (ts.filter (fun t =>
      ((fetch_histories_concurrently fetch (ts ++ [bt])).erase
        bt).contains t))).sumValues := by
    apply sum_pos_of_mem
    · intro x hxmem
      obtain ⟨t, htx⟩ := Dict.mem_values_selectKeys w0 _ x hxmem
      exact hpos x (Dict.get?_eq_some_mem_values w0 t x htx)
    · exact Dict.values_ne_nil_of_get? _ t0 v0 hselt0
  have hsm := stageMissing_partial
    ((fetch_histories_concurrently fetch (ts ++ [bt])).erase bt) ts w0
    w0.sumValues none (List.ne_nil_of_mem hmiss_mem)
    (List.ne_nil_of_mem havail_mem) hselpos
  have hfil : ((fetch_histories_concurrently fetch
      (ts ++ [bt])).erase bt).entries.filter
        (fun p => p.2.length < 2) = [] := by
    apply List.filter_eq_nil_iff.mpr
    intro p hp
    obtain ⟨hpAH, hpne⟩ := Dict.mem_entries_erase _ bt p hp
    obtain ⟨hpmem, hpgood, hpbars⟩ := fhc_mem_entries fetch (ts ++ [bt]) p hpAH
    have hpts : p.1 ∈ ts := by
      rcases List.mem_append.mp hpmem with hcase | hcase
      · exact hcase
      · exact absurd (List.mem_singleton.mp hcase) hpne
    have h2 := hlen p.1 hpts hpgood
    simp only [decide_eq_true_eq]
    rw [hpbars]
    omega
  have hsi := stageInsufficient_none
    ((fetch_histories_concurrently fetch (ts ++ [bt])).erase bt)
    ((w0.selectKeys (ts.filter (fun t =>
        ((fetch_histories_concurrently fetch (ts ++ [bt])).erase
          bt).contains t))).mapValues
      (· * (w0.sumValues / (w0.selectKeys (ts.filter (fun t =>
        ((fetch_histories_concurrently fetch (ts ++ [bt])).erase
          bt).contains t))).sumValues)))
    w0.sumValues true
    (some (partialDataMessage (ts.filter (fun t =>
      !(((fetch_histories_concurrently fetch (ts ++ [bt])).erase
        bt).contains t))) ts.length))
    hfil
  have hbd : ¬((((fetch_histories_concurrently fetch
      (ts ++ [bt])).get? bt).getD []).length < 2) := by
    rw [hAHbt, Option.getD_some]
    omega
  have hrun := all_data_forward fetch pf bt true ts w0 _ _ _ _ _ _ _ _ _ _
    hx hbt hts htot hAHne hrb hsm hsi hbd
  refine ⟨_, hrun, ?_, ?_, ?_, ?_, ?_⟩
  · show ((fetch_histories_concurrently fetch (ts ++ [bt])).get? bt).getD []
        = fetchBars fetch bt
    rw [hAHbt, Option.getD_some]
  · exact hbt1
  · have hnotmem : ¬(bt ∈ ts.filter (fun t =>
        ((fetch_histories_concurrently fetch (ts ++ [bt])).erase
          bt).contains t) ∧ (w0.get? bt).isSome = true) := by
      intro hc
      have h2 := List.mem_filter.mp hc.1
      rw [hbt1] at h2
      exact absurd h2.2 (by simp)
    show ((w0.selectKeys _).mapValues _).contains bt = false
    rw [Dict.contains_eq_isSome_get?, Dict.get?_mapValues,
      Dict.get?_selectKeys, if_neg hnotmem]
    rfl
  · obtain ⟨-, -, -, hm3⟩ := stageMissing_ok
      ((fetch_histories_concurrently fetch (ts ++ [bt])).erase bt) ts w0
      w0.sumValues true none _ _ _ htot hsm
    exact (hm3 (List.ne_nil_of_mem hmiss_mem)).1
  · exact ⟨⟨partialDataMessage (ts.filter (fun t =>
        !(((fetch_histories_concurrently fetch (ts ++ [bt])).erase
          bt).contains t))) ts.length,
      (ts.filter (fun t =>
        !(((fetch_histories_concurrently fetch (ts ++ [bt])).erase
          bt).contains t))) ++ []⟩,
      rfl, List.mem_append_left _ hmiss_mem⟩

/-- Witness for C10 at a concrete portfolio holding the benchmark SPY. -/
theorem benchmark_collision_witness :
    ("SPY" : String) ∈ ["SPY", "VTI"]
    ∧ ∃ res, all_data fetchTwoBars pfC10 "SPY" true
        = ⟨.ok res, ["SPY", "VTI"] ++ ["SPY"]⟩
      ∧ res.benchmark_data = fetchBars fetchTwoBars "SPY"
      ∧ res.portfolio_data.contains "SPY" = false
      ∧ res.weights.contains "SPY" = false
      ∧ res.weights.sumValues
          = (Dict.mk [("SPY", (40 : ℚ)), ("VTI", 60)]).sumValues
      ∧ ∃ w, res.warning = some w ∧ "SPY" ∈ w.missing_tickers :=
  ⟨by decide,
   benchmark_collision fetchTwoBars pfC10 "SPY" ["SPY", "VTI"]
     ⟨[("SPY", 40), ("VTI", 60)]⟩ (by decide) (by decide) (by decide)
     (by decide) (by decide)
     ⟨"VTI", by decide, by decide, by decide⟩
     (by decide) (by decide)⟩

/-! ## C3: benchmark fallback -/

/-- C3 counterexample, two scenarios. (a) Portfolio `[VTI]`, benchmark ACWI
with no data: the fallback SPY would succeed if fetched, but the assembler
never refetches - SPY is absent from the fetched set and `all_data` errors
out naming the benchmark. (b) Portfolio `[VTI, SPY]`, benchmark ACWI: the
fallback SPY is found among the fetched holdings and its history becomes
`benchmark_data`, but the returned warning is the partial-data message, not
the fallback-substitution message (which is overwritten). -/
theorem benchmark_fallback_cex :
    (all_data fetchC3a pfC3a "ACWI" true
        = ⟨.error (benchmarkUnavailableMessage "ACWI"), ["VTI", "ACWI"]⟩
      ∧ goodFetch fetchC3a "SPY" = true
      ∧ ¬("SPY" ∈ (all_data fetchC3a pfC3a "ACWI" true).fetched))
    ∧ ((all_data fetchC3a pfC3b "ACWI" true).result
        = .ok ⟨⟨[("VTI", [mkBar 0 100, mkBar 1 110])]⟩,
               [mkBar 0 100, mkBar 1 110],
               ⟨[("VTI", 100)]⟩,
               some ⟨partialDataMessage ["SPY"] 2, ["SPY"]⟩⟩
      ∧ partialDataMessage ["SPY"] 2 ≠ fallbackMessage "SPY" "ACWI") :=
  ⟨⟨by decide, by decide, by decide⟩, ⟨by decide, by decide⟩⟩

set_option maxHeartbeats 1600000 in
/-- C3 (amended): the assembler never refetches - everything it fetches is a
holding or the requested benchmark, so a fallback can only serve if it is
itself a fetched holding with data; if neither the benchmark nor any
fallback alternative is present in the fetched map, `all_data` fails with
the error naming the benchmark; and when benchmark ACWI has no data but
holding SPY does, SPY's fetched history becomes `benchmark_data` while the
returned warning is the partial-data message listing SPY as missing - not
the fallback-substitution message, which is overwritten. -/
theorem benchmark_fallback_amended (fetch : String → FetchResult)
    (pf : Portfolio) (bt : String) (ap : Bool) (ts : List String)
    (w0 : Dict ℚ)
    (hx : extractHoldings pf.holdings [] Dict.empty = .ok (ts, w0)) :
    (∀ x ∈ (all_data fetch pf bt ap).fetched, x ∈ ts ∨ x = bt)
    ∧ (bt ≠ "" → ts ≠ [] → 0 < w0.sumValues →
        (∃ t1, t1 ∈ ts ∧ goodFetch fetch t1 = true) →
        goodFetch fetch bt = false →
        (∀ a ∈ (benchmark_alternatives.get? bt).getD [],
            goodFetch fetch a = false ∨ ¬(a ∈ ts ++ [bt])) →
        all_data fetch pf bt ap
          = ⟨.error (benchmarkUnavailableMessage bt), ts ++ [bt]⟩)
    ∧ (bt = "ACWI" → ap = true →
        goodFetch fetch "ACWI" = false →
        "SPY" ∈ ts → goodFetch fetch "SPY" = true →
        2 ≤ (fetchBars fetch "SPY").length →
        (∃ t0, t0 ∈ ts ∧ t0 ≠ "SPY" ∧ goodFetch fetch t0 = true) →
        (∀ v ∈ w0.values, 0 < v) →
        (∀ t ∈ ts, goodFetch fetch t = true →
            2 ≤ (fetchBars fetch t).length) →
        ∃ res, all_data fetch pf bt ap = ⟨.ok res, ts ++ [bt]⟩
          ∧ res.benchmark_data = fetchBars fetch "SPY"
          ∧ ∃ m, "SPY" ∈ m
            ∧ res.warning = some ⟨partialDataMessage m ts.length, m⟩) := by
  refine ⟨?_, ?_, ?_⟩
  · intro x hxmem
    rcases all_data_fetched_cases fetch pf bt ap ts w0 hx with hf | hf
    · rw [hf] at hxmem
      simp at hxmem
    · rw [hf] at hxmem
      rcases List.mem_append.mp hxmem with hcase | hcase
      · exact Or.inl hcase
      · exact Or.inr (List.mem_singleton.mp hcase)
  · intro hbt hts htot hsome hbtbad halts
    obtain ⟨t1, ht1, ht1good⟩ := hsome
    have hAHt1 : (fetch_histories_concurrently fetch (ts ++ [bt])).get? t1
        = some (fetchBars fetch t1) := by
      rw [fhc_get?, if_pos ⟨List.mem_append_left _ ht1, ht1good⟩]
    have hAHne : (fetch_histories_concurrently fetch (ts ++ [bt])).isEmpty
        = false :=
      Dict.isEmpty_false_of_get? _ t1 _ hAHt1
    have hbtc : (fetch_histories_concurrently fetch
        (ts ++ [bt])).contains bt = false := by
      rw [Bool.eq_false_iff]
      intro hc
      have h2 := ((fhc_contains fetch (ts ++ [bt]) bt).mp hc).2
      rw [hbtbad] at h2
      exact Bool.noConfusion h2
    have hfind : ((benchmark_alternatives.get? bt).getD []).find?
        (fun a => (fetch_histories_concurrently fetch
          (ts ++ [bt])).contains a) = none := by
      apply List.find?_eq_none.mpr
      intro a ha hca
      obtain ⟨hamem, hagood⟩ := (fhc_contains fetch (ts ++ [bt]) a).mp hca
      rcases halts a ha with hbad | hnmem
      · rw [hbad] at hagood
        exact Bool.noConfusion hagood
      · exact hnmem hamem
    exact all_data_rb_error fetch pf bt ap ts w0 _ hx hbt hts htot hAHne
      (resolveBenchmark_absent_none _ bt hbtc hfind)
  · intro hbtA hap hACWIbad hSPYmem hSPYgood hSPY2 hother hpos hlen
    subst hbtA
    subst hap
    obtain ⟨t0, ht0, ht0ne, ht0good⟩ := hother
    have hts : ts ≠ [] := List.ne_nil_of_mem hSPYmem
    have hSPYSome : (w0.get? "SPY").isSome = true :=
      extractHoldings_isSome_of_mem pf.holdings ts w0 hx "SPY" hSPYmem
    obtain ⟨vS, hvS⟩ := Option.isSome_iff_exists.mp hSPYSome
    have htot : 0 < w0.sumValues :=
      sum_pos_of_mem w0.values (fun v hv => hpos v hv)
        (Dict.values_ne_nil_of_get? w0 "SPY" vS hvS)
    have hAHSPY : (fetch_histories_concurrently fetch
        (ts ++ ["ACWI"])).get? "SPY" = some (fetchBars fetch "SPY") := by
      rw [fhc_get?, if_pos ⟨List.mem_append_left _ hSPYmem, hSPYgood⟩]
    have hAHne : (fetch_histories_concurrently fetch
        (ts ++ ["ACWI"])).isEmpty = false :=
      Dict.isEmpty_false_of_get? _ "SPY" _ hAHSPY
    have hAHcontSPY : (fetch_histories_concurrently fetch
        (ts ++ ["ACWI"])).contains "SPY" = true := by
      rw [Dict.contains_eq_isSome_get?, hAHSPY]
      rfl
    have hACWIc : (fetch_histories_concurrently fetch
        (ts ++ ["ACWI"])).contains "ACWI" = false := by
      rw [Bool.eq_false_iff]
      intro hc
      have h2 := ((fhc_contains fetch (ts ++ ["ACWI"]) "ACWI").mp hc).2
      rw [hACWIbad] at h2
      exact Bool.noConfusion h2
    have hgetalts : (benchmark_alternatives.get? "ACWI").getD []
        = ["SPY", "VT"] := by decide
    have hfind : ((benchmark_alternatives.get? "ACWI").getD []).find?
        (fun a => (fetch_histories_concurrently fetch
          (ts ++ ["ACWI"])).contains a) = some "SPY" := by
      rw [hgetalts]
      exact List.find?_cons_of_pos _ hAHcontSPY
    have hrb := resolveBenchmark_fallback
      (fetch_histories_concurrently fetch (ts ++ ["ACWI"])) "ACWI" "SPY"
      hACWIc hfind
    have hSPY1 : ((fetch_histories_concurrently fetch
        (ts ++ ["ACWI"])).erase "SPY").contains "SPY" = false :=
      Dict.contains_erase_self _ "SPY"
    have hmiss_mem : "SPY" ∈ ts.filter (fun t =>
        !(((fetch_histories_concurrently fetch (ts ++ ["ACWI"])).erase
          "SPY").contains t)) := by
      apply List.mem_filter.mpr
      exact ⟨hSPYmem, by rw [hSPY1]; rfl⟩
    have ht0cont : ((fetch_histories_concurrently fetch
        (ts ++ ["ACWI"])).erase "SPY").contains t0 = true := by
      rw [Dict.contains_erase_other _ "SPY" t0 ht0ne]
      exact (fhc_contains fetch (ts ++ ["ACWI"]) t0).mpr
        ⟨List.mem_append_left _ ht0, ht0good⟩
    have havail_mem : t0 ∈ ts.filter (fun t =>
        ((fetch_histories_concurrently fetch (ts ++ ["ACWI"])).erase
          "SPY").contains t) :=
      List.mem_filter.mpr ⟨ht0, ht0cont⟩
    have ht0Some : (w0.get? t0).isSome = true :=
      extractHoldings_isSome_of_mem pf.holdings ts w0 hx t0 ht0
    obtain ⟨v0, hv0⟩ := Option.isSome_iff_exists.mp ht0Some
    have hselt0 : (w0.selectKeys (ts.filter (fun t =>
        ((fetch_histories_concurrently fetch (ts ++ ["ACWI"])).erase
          "SPY").contains t))).get? t0 = some v0 := by
      rw [Dict.get?_selectKeys, if_pos ⟨havail_mem, by rw [hv0]; rfl⟩, hv0]
    have hselpos : 0 < (w0.selectKeys (ts.filter (fun t =>
        ((fetch_histories_concurrently fetch (ts ++ ["ACWI"])).erase
          "SPY").contains t))).sumValues := by
      apply sum_pos_of_mem
      · intro x hxmem
        obtain ⟨t, htx⟩ := Dict.mem_values_selectKeys w0 _ x hxmem
        exact hpos x (Dict.get?_eq_some_mem_values w0 t x htx)
      · exact Dict.values_ne_nil_of_get? _ t0 v0 hselt0
    have hsm := stageMissing_partial
      ((fetch_histories_concurrently fetch (ts ++ ["ACWI"])).erase "SPY")
      ts w0 w0.sumValues (some (fallbackMessage "SPY" "ACWI"))
      (List.ne_nil_of_mem hmiss_mem) (List.ne_nil_of_mem havail_mem) hselpos
    have hfil : ((fetch_histories_concurrently fetch
        (ts ++ ["ACWI"])).erase "SPY").entries.filter
          (fun p => p.2.length < 2) = [] := by
      apply List.filter_eq_nil_iff.mpr
      intro p hp
      obtain ⟨hpAH, hpne⟩ := Dict.mem_entries_erase _ "SPY" p hp
      obtain ⟨hpmem, hpgood, hpbars⟩ :=
        fhc_mem_entries fetch (ts ++ ["ACWI"]) p hpAH
      have hpts : p.1 ∈ ts := by
        rcases List.mem_append.mp hpmem with hcase | hcase
        · exact hcase
        · have h3 := List.mem_singleton.mp hcase
          rw [h3] at hpgood
          rw [hACWIbad] at hpgood
          exact Bool.noConfusion hpgood
      have h2 := hlen p.1 hpts hpgood
      simp only [decide_eq_true_eq]
      rw [hpbars]
      omega
    have hsi := stageInsufficient_none
      ((fetch_histories_concurrently fetch (ts ++ ["ACWI"])).erase "SPY")
      ((w0.selectKeys (ts.filter (fun t =>
          ((fetch_histories_concurrently fetch (ts ++ ["ACWI"])).erase
            "SPY").contains t))).mapValues
        (· * (w0.sumValues / (w0.selectKeys (ts.filter (fun t =>
          ((fetch_histories_concurrently fetch (ts ++ ["ACWI"])).erase
            "SPY").contains t))).sumValues)))
      w0.sumValues true
      (some (partialDataMessage (ts.filter (fun t =>
        !(((fetch_histories_concurrently fetch (ts ++ ["ACWI"])).erase
          "SPY").contains t))) ts.length))
      hfil
    have hbd : ¬((((fetch_histories_concurrently fetch
        (ts ++ ["ACWI"])).get? "SPY").getD []).length < 2) := by
      rw [hAHSPY, Option.getD_some]
      omega
    have hrun := all_data_forward fetch pf "ACWI" true ts w0 _ _ _ _ _ _ _ _ _ _
      hx (by decide) hts htot hAHne hrb hsm hsi hbd
    refine ⟨_, hrun, ?_, ?_⟩
    · show ((fetch_histories_concurrently fetch
          (ts ++ ["ACWI"])).get? "SPY").getD [] = fetchBars fetch "SPY"
      rw [hAHSPY, Option.getD_some]
    · refine ⟨ts.filter (fun t =>
        !(((fetch_histories_concurrently fetch (ts ++ ["ACWI"])).erase
          "SPY").contains t)), hmiss_mem, ?_⟩
      show some (DataQualityWarning.mk _ (_ ++ [])) = _
      rw [List.append_nil]

/-- Witness for C3 (amended), fallback leg: benchmark ACWI has no data, the
holding SPY serves as fallback benchmark data and is reported missing. -/
theorem benchmark_fallback_amended_witness :
    goodFetch fetchC3a "ACWI" = false
    ∧ ∃ res, all_data fetchC3a pfC3b "ACWI" true
        = ⟨.ok res, ["VTI", "SPY"] ++ ["ACWI"]⟩
      ∧ res.benchmark_data = fetchBars fetchC3a "SPY"
      ∧ ∃ m, "SPY" ∈ m
        ∧ res.warning = some ⟨partialDataMessage m (["VTI", "SPY"]).length, m⟩ :=
  ⟨by decide,
   (benchmark_fallback_amended fetchC3a pfC3b "ACWI" true ["VTI", "SPY"]
      ⟨[("VTI", 60), ("SPY", 40)]⟩ (by decide)).2.2 rfl rfl (by decide)
      (by decide) (by decide) (by decide)
      ⟨"VTI", by decide, by decide, by decide⟩ (by decide) (by decide)⟩

/-- Witness for C8: an empty holdings list fails validation with no fetch. -/
theorem failfast_validation_witness :
    ∃ e, (all_data (fun _ => .ok [mkBar 0 1, mkBar 1 1])
        (Portfolio.mk "p" [] stratEx) "ACWI" true).result = .error e
      ∧ e ∈ ["benchmark_ticker must be a non-empty string",
             "Portfolio must have holdings",
             "Each holding must have symbol and weight attributes",
             "Holding symbol cannot be empty",
             "Portfolio contains no valid tickers",
             "Portfolio weights must sum to a positive value"]
      ∧ (all_data (fun _ => .ok [mkBar 0 1, mkBar 1 1])
          (Portfolio.mk "p" [] stratEx) "ACWI" true).fetched = [] :=
  failfast_validation (fun _ => .ok [mkBar 0 1, mkBar 1 1])
    (Portfolio.mk "p" [] stratEx) "ACWI" true (Or.inr (Or.inl rfl))

end Robo

